import Mathlib

/-!
# Verification development for `host/lib/utils/log.cpp` (UHD logging engine)

Shallow embedding of the log resource of `log.cpp`: severity parsing
(`_get_log_level`), configuration resolution in the constructor, the backend
registry (`std::map` keyed by string), dispatch (`_handle_log_info`), the
scoped log statement (`uhd::_log::log`), the consumer task (`pop_task`) and
the ordering of the teardown steps of `~log_resource`.

Conventions.
* `std::string` is embedded as `String`; `s[0]` of an empty string is the
  terminating NUL character.
* `std::map<std::string, V>` is embedded as an association list kept in
  strictly increasing key order (the iteration order of the map).
* `std::function` values may be empty (default constructed); calling an empty
  one throws `std::bad_function_call`.
* Code that can throw returns `Except`.
-/

namespace uhd

/-! ## Severity levels and logging_info (declared in `uhd/utils/log.hpp`) -/

/-- Modelled from the spec: the enumeration `uhd::log::severity_level` of
`uhd/utils/log.hpp` (the header is not part of the sources at hand). The spec
gives the total order trace < debug < info < warning < error < fatal < off with
ordinals 0 to 6. -/
inductive severity_level where
  | trace | debug | info | warning | error | fatal | off
  deriving DecidableEq, Repr, Inhabited

namespace severity_level

/-- Ordinal of an enumerator (the integer value of the C++ enumerator). -/
def ordinal : severity_level → Int
  | trace => 0 | debug => 1 | info => 2 | warning => 3
  | error => 4 | fatal => 5 | off => 6

instance : LT severity_level := ⟨fun a b => a.ordinal < b.ordinal⟩
instance : LE severity_level := ⟨fun a b => a.ordinal ≤ b.ordinal⟩
instance (a b : severity_level) : Decidable (a < b) :=
  inferInstanceAs (Decidable (a.ordinal < b.ordinal))
instance (a b : severity_level) : Decidable (a ≤ b) :=
  inferInstanceAs (Decidable (a.ordinal ≤ b.ordinal))

/-- The cast `uhd::log::severity_level(n)` for an integer inside the range
`trace .. off`; integers outside the enumeration have no enumerator. -/
def ofInt? (n : Int) : Option severity_level :=
  if n = 0 then some trace
  else if n = 1 then some debug
  else if n = 2 then some info
  else if n = 3 then some warning
  else if n = 4 then some error
  else if n = 5 then some fatal
  else if n = 6 then some off
  else none

end severity_level

/-- Modelled from the spec: the value type `uhd::log::logging_info` of
`uhd/utils/log.hpp` (timestamp, severity, source location, component, thread
identity, message text). Time stamps and thread ids are opaque naturals. -/
structure logging_info where
  time : Nat
  verbosity : severity_level
  file : String
  line : Nat
  component : String
  thread_id : Nat
  message : String
  deriving DecidableEq, Repr

/-- The constructor `logging_info(time, verbosity, file, line, component,
thread_id)`: the message starts out empty. -/
def logging_info.mk6 (time : Nat) (verbosity : severity_level) (file : String)
    (line : Nat) (component : String) (thread_id : Nat) : logging_info :=
  { time := time, verbosity := verbosity, file := file, line := line,
    component := component, thread_id := thread_id, message := "" }

/-- The default constructed `logging_info()`. -/
def logging_info.default : logging_info :=
  { time := 0, verbosity := severity_level.off, file := "", line := 0,
    component := "", thread_id := 0, message := "" }

/-! ## `std::stoi` and `_get_log_level` (log.cpp lines 347-371) -/

/-- Exceptions of `std::stoi`. -/
inductive stoi_exception where
  | invalid_argument
  | out_of_range
  deriving DecidableEq, Repr

/-- `s[0]` of a `const std::string&`: the first character, NUL when empty. -/
def front (s : String) : Char := s.data.headD (Char.ofNat 0)

/-- `std::isdigit` in the C locale. -/
def isdigit (c : Char) : Bool := decide (48 ≤ c.toNat) && decide (c.toNat ≤ 57)

/-- `std::isspace` in the C locale. -/
def isspace (c : Char) : Bool :=
  c.toNat = 32 || (decide (9 ≤ c.toNat) && decide (c.toNat ≤ 13))

/-- Value of a run of decimal digits, most significant first. -/
def digits_value (ds : List Char) : Nat :=
  ds.foldl (fun acc c => acc * 10 + (c.toNat - 48)) 0

/-- Largest value of a C++ `int` (32 bits). -/
def INT_MAX : Int := 2147483647
/-- Smallest value of a C++ `int` (32 bits). -/
def INT_MIN : Int := -2147483648

/-- Strip an optional sign, as `strtol` does: returns (negative?, rest). -/
def strip_sign : List Char → Bool × List Char
  | c :: cs => if c = '-' then (true, cs) else if c = '+' then (false, cs) else (false, c :: cs)
  | [] => (false, [])

/-- `std::stoi(str)` with base 10: skip leading white space, read an optional
sign and the longest run of digits; no digits throws `invalid_argument`, a
value outside `int` throws `out_of_range`; trailing characters are ignored. -/
def stoi (s : String) : Except stoi_exception Int :=
  let body := strip_sign (s.data.dropWhile isspace)
  let ds := body.2.takeWhile isdigit
  if ds = [] then Except.error stoi_exception.invalid_argument
  else
    let v : Int := if body.1 then -(digits_value ds : Int) else (digits_value ds : Int)
    if v < INT_MIN ∨ INT_MAX < v then Except.error stoi_exception.out_of_range
    else Except.ok v

/-- The ways the construction of the `log_resource` singleton can fail to
complete: an exception of `std::stoi` leaves the constructor, or a log
statement executed inside the constructor calls `log_rs()` again while the
singleton is still being constructed. -/
inductive init_failure where
  | stoi_threw (e : stoi_exception)
  | log_rs_reentered
  deriving DecidableEq, Repr

/-- Modelled from the spec: the macro `UHD_LOGGER_ERROR` of `uhd/utils/log.hpp`
and the accessor `log_rs()` generated by `UHD_SINGLETON_FCN` of
`uhd/utils/static.hpp` (neither header is part of the sources at hand). The
macro builds a scoped log statement; the constructor of that statement
(log.cpp line 447) reads `log_rs().global_level`, and `log_rs()` (line 435)
constructs the singleton on first use. Once the singleton is constructed the
statement is an ordinary log statement; while the singleton is still being
constructed the call enters its initialisation a second time and the
statement does not complete. -/
def UHD_LOGGER_ERROR (singleton_constructed : Bool) : Except init_failure Unit :=
  if singleton_constructed then Except.ok () else Except.error init_failure.log_rs_reentered

/-- `log_resource::_get_log_level(log_level_str, previous_level)`.
A string starting with a digit is read with `std::stoi` and accepted when the
number lies in `trace .. fatal`; a rejected number runs `UHD_LOGGER_ERROR`
before `previous_level` is returned. Any other string is compared with the
seven enumerator names, and yields `previous_level` when it is none of them.
The function is private and all its callers (lines 182, 191, 378, 387, 399,
409) run inside the constructor of the singleton, so its log statement runs
while the singleton is not yet constructed. -/
def _get_log_level (log_level_str : String) (previous_level : severity_level) :
    Except init_failure severity_level :=
  if isdigit (front log_level_str) then
    match stoi log_level_str with
    | Except.error e => Except.error (init_failure.stoi_threw e)
    | Except.ok log_level_num =>
      if severity_level.trace.ordinal ≤ log_level_num ∧
          log_level_num ≤ severity_level.fatal.ordinal then
        match severity_level.ofInt? log_level_num with
        | some l => Except.ok l
        | none => Except.ok previous_level
      else
        match UHD_LOGGER_ERROR false with
        | Except.error e => Except.error e
        | Except.ok _ => Except.ok previous_level
  else if log_level_str = "trace" then Except.ok severity_level.trace
  else if log_level_str = "debug" then Except.ok severity_level.debug
  else if log_level_str = "info" then Except.ok severity_level.info
  else if log_level_str = "warning" then Except.ok severity_level.warning
  else if log_level_str = "error" then Except.ok severity_level.error
  else if log_level_str = "fatal" then Except.ok severity_level.fatal
  else if log_level_str = "off" then Except.ok severity_level.off
  else Except.ok previous_level

/-! ## The backend registry `_loggers` (log.cpp lines 424-428) -/

/-- `uhd::log::log_fn_t` is `std::function<void(const logging_info&)>`: either
empty (`none`, the default constructed value) or holding a target. -/
abbrev log_fn_t (F : Type) := Option F

/-- `level_logfn_pair` is `std::pair<severity_level, log_fn_t>`. -/
abbrev level_logfn_pair (F : Type) := severity_level × log_fn_t F

/-- Value initialisation of a `level_logfn_pair`: enumerator zero and an empty
function object. -/
def level_logfn_pair.value_init (F : Type) : level_logfn_pair F :=
  (severity_level.trace, none)

/-- `std::map<std::string, level_logfn_pair>` as the list of its entries in
iteration order. -/
abbrev logger_map (F : Type) := List (String × level_logfn_pair F)

/-- `m.find(key)`: the mapped value, when the key is present. -/
def logger_map.find {F : Type} : logger_map F → String → Option (level_logfn_pair F)
  | [], _ => none
  | (k, v) :: rest, key => if key = k then some v else logger_map.find rest key

/-- The keys of the map, in iteration order. -/
def logger_map.keys {F : Type} (m : logger_map F) : List String := m.map Prod.fst

/-- Lexicographic comparison of character sequences. -/
def lex_less : List Char → List Char → Bool
  | [], [] => false
  | [], _ :: _ => true
  | _ :: _, [] => false
  | a :: as, b :: bs => if a < b then true else if b < a then false else lex_less as bs

/-- The key order of the map, `std::less<std::string>`: lexicographic
comparison of the characters. -/
def key_less (a b : String) : Bool := lex_less a.data b.data

/-- The statement `m[key] <- g(m[key])`: `operator[]` finds the entry of `key`
or inserts a value initialised entry at its place in key order, then the
mapped value is overwritten by `g` of it. -/
def logger_map.subscript_update {F : Type} :
    logger_map F → String → (level_logfn_pair F → level_logfn_pair F) → logger_map F
  | [], key, g => [(key, g (level_logfn_pair.value_init F))]
  | (k, v) :: rest, key, g =>
    if key = k then (k, g v) :: rest
    else if key_less key k then (key, g (level_logfn_pair.value_init F)) :: (k, v) :: rest
    else (k, v) :: logger_map.subscript_update rest key g

/-- `log_resource::add_logger(key, logger_fn)`:
`_loggers[key] = level_logfn_pair{global_level, logger_fn}`. -/
def add_logger {F : Type} (_loggers : logger_map F) (global_level : severity_level)
    (key : String) (logger_fn : log_fn_t F) : logger_map F :=
  _loggers.subscript_update key (fun _ => (global_level, logger_fn))

/-- `log_resource::set_log_level(key, level)`: `_loggers[key].first = level`. -/
def set_log_level {F : Type} (_loggers : logger_map F) (key : String)
    (level : severity_level) : logger_map F :=
  _loggers.subscript_update key (fun p => (level, p.2))

/-- `uhd::log::set_logger_level(key, level)` forwards to `set_log_level`. -/
def set_logger_level {F : Type} (_loggers : logger_map F) (key : String)
    (level : severity_level) : logger_map F :=
  set_log_level _loggers key level

/-- The key of the console sink, `UHD_CONSOLE_LOGGER_KEY`. -/
def UHD_CONSOLE_LOGGER_KEY : String := "console"
/-- The key of the file sink, `UHD_FILE_LOGGER_KEY`. -/
def UHD_FILE_LOGGER_KEY : String := "file"

/-- `uhd::log::set_console_level(level)`. -/
def set_console_level {F : Type} (_loggers : logger_map F) (level : severity_level) :
    logger_map F :=
  set_logger_level _loggers UHD_CONSOLE_LOGGER_KEY level

/-- `uhd::log::set_file_level(level)`. -/
def set_file_level {F : Type} (_loggers : logger_map F) (level : severity_level) :
    logger_map F :=
  set_logger_level _loggers UHD_FILE_LOGGER_KEY level

/-! ## Dispatch: `_handle_log_info` (log.cpp lines 273-286) -/

/-- One observable step of a dispatch: taking the registry mutex, calling a
sink, releasing the mutex. -/
inductive dispatch_step (F : Type) where
  | lock_acquire
  | invoke (key : String) (fn : F) (arg : logging_info)
  | lock_release

/-- One sink invocation: the key of the entry, the target called and the
argument passed. -/
structure invocation (F : Type) where
  key : String
  fn : F
  arg : logging_info

/-- Outcome of one `_handle_log_info` call: the steps performed, and whether
the call was left by a `std::bad_function_call` (an empty function object was
called). -/
structure dispatch_result (F : Type) where
  steps : List (dispatch_step F)
  threw : Bool

/-- The range-for loop over `_loggers`: an entry whose level is above the
verbosity of the event is skipped (`continue`), any other entry has its
function called; calling an empty function throws and ends the loop. -/
def dispatch_loop {F : Type} : logger_map F → logging_info → List (dispatch_step F) × Bool
  | [], _ => ([], false)
  | (k, logger) :: rest, log_info =>
    if log_info.verbosity < logger.1 then dispatch_loop rest log_info
    else
      match logger.2 with
      | none => ([], true)
      | some f =>
        let r := dispatch_loop rest log_info
        (dispatch_step.invoke k f log_info :: r.1, r.2)

/-- `log_resource::_handle_log_info(log_info)`: returns at once on an empty
message; otherwise a `std::lock_guard` on `_logmap_mutex` is taken, the loop
runs, and the guard is released when the function returns. -/
def _handle_log_info {F : Type} (_loggers : logger_map F) (log_info : logging_info) :
    dispatch_result F :=
  if log_info.message = "" then { steps := [], threw := false }
  else
    let r := dispatch_loop _loggers log_info
    { steps := dispatch_step.lock_acquire :: r.1 ++
        (if r.2 then [] else [dispatch_step.lock_release]),
      threw := r.2 }

/-- The sink invocations among a list of steps, in order. -/
def invocations {F : Type} : List (dispatch_step F) → List (invocation F)
  | [] => []
  | dispatch_step.invoke k f a :: rest => { key := k, fn := f, arg := a } :: invocations rest
  | _ :: rest => invocations rest

/-- Whether `_logmap_mutex` is held after a list of steps, starting from
`held`. -/
def lock_held_after {F : Type} : Bool → List (dispatch_step F) → Bool
  | held, [] => held
  | _, dispatch_step.lock_acquire :: rest => lock_held_after true rest
  | _, dispatch_step.lock_release :: rest => lock_held_after false rest
  | held, dispatch_step.invoke _ _ _ :: rest => lock_held_after held rest

/-- The representation invariant of the `std::map`: keys strictly increasing
in iteration order. -/
def logger_map.ordered {F : Type} (m : logger_map F) : Prop :=
  m.keys.Pairwise (fun a b => key_less a b = true)

/-- Every entry of the registry holds a callable target. -/
def all_callable {F : Type} (m : logger_map F) : Prop :=
  ∀ e ∈ m, e.2.2 ≠ none

/-! ## The scoped log statement `uhd::_log::log` (log.cpp lines 440-466) -/

/-- State of a `uhd::_log::log` object: the activity flag, the record under
construction and the text buffer `_ss`. -/
structure log where
  _log_it : Bool
  _log_info : logging_info
  _ss : String
  deriving DecidableEq, Repr

/-- Constructor `log::log(verbosity, file, line, component, thread_id)`.
`global_level` is the value of `log_rs().global_level` read at construction,
`now` the clock reading. `_log_it` is `verbosity >= global_level`; only an
active statement builds its `logging_info`. -/
def log.ctor (global_level : severity_level) (now : Nat) (verbosity : severity_level)
    (file : String) (line : Nat) (component : String) (thread_id : Nat) : log :=
  let _log_it := decide (verbosity ≥ global_level)
  { _log_it := _log_it,
    _log_info :=
      if _log_it then logging_info.mk6 now verbosity file line component thread_id
      else logging_info.default,
    _ss := "" }

/-- Modelled from the spec: the stream insertion operator of `uhd::_log::log`,
declared in `uhd/utils/log.hpp` (not part of the sources at hand). An active
statement appends the fragment to its buffer, an inert one skips it. -/
def log.insert (l : log) (fragment : String) : log :=
  if l._log_it then { l with _ss := l._ss ++ fragment } else l

/-- Destructor `log::~log()`: the list of `log_rs().push(...)` calls it makes.
An active statement stores `_ss.str()` as message and pushes the record. -/
def log.dtor (l : log) : List logging_info :=
  if l._log_it then [{ l._log_info with message := l._ss }] else []

/-! ## Configuration resolution in the constructor (log.cpp lines 172-226, 373-422) -/

/-- The compile-time macros read by `log.cpp`; `none` means not defined, a
defined macro carries its stringised value. -/
structure build_config where
  UHD_LOG_MIN_LEVEL : Option String
  UHD_LOG_CONSOLE_DISABLE : Bool
  UHD_LOG_CONSOLE_LEVEL : Option String
  UHD_LOG_FILE_LEVEL : Option String
  UHD_LOG_FILE : Option String
  UHD_LOG_FASTPATH_DISABLE : Bool

/-- The process environment as seen through `std::getenv`. -/
abbrev environment := String → Option String

/-- The test `env != NULL && env[0] != NUL` applied to a `getenv` result. -/
def env_set_nonempty (v : Option String) : Option String :=
  match v with
  | some s => if front s ≠ Char.ofNat 0 then some s else none
  | none => none

/-- An optional override `level = _get_log_level(token, level)`: applied when
the token is there (macro defined, or variable set and not empty), skipped
otherwise. -/
def override_level (token : Option String) (level : severity_level) :
    Except init_failure severity_level :=
  match token with
  | some t => _get_log_level t level
  | none => pure level

/-- Lines 172-192 of the constructor: `global_level` starts at `off`, is
overridden by `UHD_LOG_MIN_LEVEL` when that macro is defined, then by the
environment variable `UHD_LOG_LEVEL` when it is set and not empty. -/
def resolve_global_level (cfg : build_config) (getenv : environment) :
    Except init_failure severity_level := do
  let global_level := severity_level.off
  let global_level ← override_level cfg.UHD_LOG_MIN_LEVEL global_level
  let global_level ← override_level (env_set_nonempty (getenv "UHD_LOG_LEVEL")) global_level
  pure global_level

/-- State of a `file_logger_backend`: whether `_file_stream` is open, and on
which path. -/
structure file_logger_backend where
  file_path : String
  is_open : Bool
  deriving DecidableEq, Repr

/-- Constructor `file_logger_backend(file_path)`: a non-empty path is opened
for appending; a failure of `open` is caught and reported on `std::cerr`, the
object is constructed with a closed stream. `open_succeeds` tells which paths
can be opened. -/
def file_logger_backend.ctor (open_succeeds : String → Bool) (file_path : String) :
    file_logger_backend :=
  if file_path ≠ "" then
    if open_succeeds file_path then { file_path := file_path, is_open := true }
    else { file_path := file_path, is_open := false }
  else { file_path := file_path, is_open := false }

/-- The exception `std::ofstream::failure`: the constructor of the backend
enables stream exceptions for `failbit` and `badbit`. -/
inductive ofstream_failure where
  | failure
  deriving DecidableEq, Repr

/-- `file_logger_backend::log(log_info)`: the records written to the file, one
line each. Nothing is written when the stream is not open; on an open stream
a write that fails throws out of the sink (`write_succeeds` tells whether the
write goes through). -/
def file_logger_backend.log (b : file_logger_backend) (write_succeeds : Bool)
    (log_info : logging_info) : Except ofstream_failure (List logging_info) :=
  if b.is_open then
    if write_succeeds then Except.ok [log_info] else Except.error ofstream_failure.failure
  else Except.ok []

/-- The targets that can be stored in the registry: the free function
`console_log`, the closure over a shared `file_logger_backend`, or a function
supplied by the user through `uhd::log::add_logger`. -/
inductive sink (U : Type) where
  | console_log
  | file_log (F : file_logger_backend)
  | user (u : U)

/-- `log_resource::_setup_console_logging()`. -/
def _setup_console_logging {U : Type} (cfg : build_config) (getenv : environment)
    (_loggers : logger_map (sink U)) : Except init_failure (logger_map (sink U)) :=
  if cfg.UHD_LOG_CONSOLE_DISABLE then pure _loggers
  else do
    let console_level := severity_level.trace
    let console_level ← override_level cfg.UHD_LOG_CONSOLE_LEVEL console_level
    let console_level ←
      override_level (env_set_nonempty (getenv "UHD_LOG_CONSOLE_LEVEL")) console_level
    pure (_loggers.subscript_update UHD_CONSOLE_LOGGER_KEY
      (fun _ => (console_level, some sink.console_log)))

/-- The target path resolved by `_setup_file_logging`: the macro `UHD_LOG_FILE`
when defined, overridden by the environment variable `UHD_LOG_FILE` when set
and not empty; the empty string when neither gives one. -/
def resolve_log_file_target (cfg : build_config) (getenv : environment) : String :=
  let log_file_target := ""
  let log_file_target :=
    match cfg.UHD_LOG_FILE with
    | some f => f
    | none => log_file_target
  match env_set_nonempty (getenv "UHD_LOG_FILE") with
  | some v => v
  | none => log_file_target

/-- `log_resource::_setup_file_logging()`. -/
def _setup_file_logging {U : Type} (cfg : build_config) (getenv : environment)
    (open_succeeds : String → Bool) (_loggers : logger_map (sink U)) :
    Except init_failure (logger_map (sink U)) := do
  let file_level := severity_level.trace
  let file_level ← override_level cfg.UHD_LOG_FILE_LEVEL file_level
  let file_level ←
    override_level (env_set_nonempty (getenv "UHD_LOG_FILE_LEVEL")) file_level
  let log_file_target := resolve_log_file_target cfg getenv
  if log_file_target ≠ "" then
    let F := file_logger_backend.ctor open_succeeds log_file_target
    pure (_loggers.subscript_update UHD_FILE_LOGGER_KEY
      (fun _ => (file_level, some (sink.file_log F))))
  else pure _loggers

/-- Capacity of `_log_queue` (and of `_fastpath_queue`), set in the
constructor's initialiser list. -/
def LOG_QUEUE_CAPACITY : Nat := 10

/-- Modelled from the spec: `bounded_buffer::push_with_timed_wait` of
`uhd/transport/bounded_buffer.hpp` (not part of the sources at hand), seen at
the moment the call completes: the element is appended when the buffer has
room, and silently dropped otherwise. -/
def push_with_timed_wait {α : Type} (capacity : Nat) (q : List α) (x : α) : List α :=
  if q.length < capacity then q ++ [x] else q

/-- The fields of a constructed `log_resource`. -/
structure log_resource (U : Type) where
  global_level : severity_level
  _exit : Bool
  _loggers : logger_map (sink U)
  _log_queue : List logging_info
  _fastpath_queue : List String

/-- Constructor `log_resource::log_resource()`: resolves the global level,
sets up console and file logging, pushes the boot message at severity `info`
and leaves both queues ready for the consumer threads. `sys_info` is the text
of the boot message, `now` and `tid` its time stamp and thread id. -/
def log_resource.ctor (U : Type) (cfg : build_config) (getenv : environment)
    (open_succeeds : String → Bool) (sys_info : String) (now tid : Nat) :
    Except init_failure (log_resource U) := do
  let global_level ← resolve_global_level cfg getenv
  let _loggers ← _setup_console_logging cfg getenv ([] : logger_map (sink U))
  let _loggers ← _setup_file_logging cfg getenv open_succeeds _loggers
  let sys_info_log_msg :=
    { logging_info.mk6 now severity_level.info "log.cpp" 211 "UHD" tid with
      message := sys_info }
  pure { global_level := global_level, _exit := false, _loggers := _loggers,
         _log_queue := push_with_timed_wait LOG_QUEUE_CAPACITY [] sys_info_log_msg,
         _fastpath_queue := [] }

/-! ## The consumer task `pop_task` (log.cpp lines 288-305) -/

/-- Control points of `pop_task`. -/
inductive pop_task_pc where
  | loop_test   -- about to evaluate `while (!_exit)`
  | pop_wait    -- inside `_log_queue.pop_with_wait`, blocked while the queue is empty
  | drain       -- about to evaluate `_log_queue.pop_with_haste`
  | finished    -- the thread function has returned
  | aborted     -- left by an exception thrown out of `_handle_log_info`
  deriving DecidableEq, Repr

/-- The state shared by the producers, the tearing-down thread and `pop_task`.
`handled` lists the arguments of the `_handle_log_info` calls made so far and
`steps` what those calls did; `accepted` lists the elements the queue has
taken so far. -/
structure engine (F : Type) where
  _exit : Bool
  _loggers : logger_map F
  _log_queue : List logging_info
  pc : pop_task_pc
  handled : List logging_info
  steps : List (dispatch_step F)
  accepted : List logging_info

/-- The engine when `pop_task` is launched: the flag is clear and the queue
holds what was pushed before the launch. -/
def engine.init {F : Type} (_loggers : logger_map F) (queue : List logging_info) : engine F :=
  { _exit := false, _loggers := _loggers, _log_queue := queue,
    pc := pop_task_pc.loop_test, handled := [], steps := [], accepted := queue }

/-- The call `_handle_log_info(log_info)` made by `pop_task` on a popped
element, continuing at `next` when the call returns. -/
def engine.handle {F : Type} (s : engine F) (log_info : logging_info)
    (rest : List logging_info) (next : pop_task_pc) : engine F :=
  let r := _handle_log_info s._loggers log_info
  { s with
    _log_queue := rest,
    handled := s.handled ++ [log_info],
    steps := s.steps ++ r.steps,
    pc := if r.threw then pop_task_pc.aborted else next }

/-- One step of `pop_task`. In the first loop the flag is tested, then the
blocking pop waits for an element and hands it to `_handle_log_info`; once the
flag is seen set the second loop pops without waiting until the queue
reports empty. -/
def engine.pop_task_step {F : Type} (s : engine F) : engine F :=
  match s.pc with
  | pop_task_pc.loop_test =>
    if s._exit then { s with pc := pop_task_pc.drain }
    else { s with pc := pop_task_pc.pop_wait }
  | pop_task_pc.pop_wait =>
    match s._log_queue with
    | [] => s
    | log_info :: rest => s.handle log_info rest pop_task_pc.loop_test
  | pop_task_pc.drain =>
    match s._log_queue with
    | [] => { s with pc := pop_task_pc.finished }
    | log_info :: rest => s.handle log_info rest pop_task_pc.drain
  | pop_task_pc.finished => s
  | pop_task_pc.aborted => s

/-- `log_resource::push(log_info)` as seen by the queue: the element is taken
when there is room and dropped otherwise. -/
def engine.push {F : Type} (s : engine F) (log_info : logging_info) : engine F :=
  if s._log_queue.length < LOG_QUEUE_CAPACITY then
    { s with _log_queue := s._log_queue ++ [log_info],
             accepted := s.accepted ++ [log_info] }
  else s

/-- First statement of `~log_resource`: `_exit = true`. -/
def engine.set_exit {F : Type} (s : engine F) : engine F := { s with _exit := true }

/-- The final message of `~log_resource`: severity `trace`, component
`LOGGING`, empty text. -/
def final_message (now tid : Nat) : logging_info :=
  { logging_info.mk6 now severity_level.trace "log.cpp" 237 "LOGGING" tid with message := "" }

/-- Second statement of `~log_resource`: `push(final_message)`. -/
def engine.push_final_message {F : Type} (s : engine F) (now tid : Nat) : engine F :=
  s.push (final_message now tid)

/-- What the scheduler can pick while the engine runs: a producer completing
a `push`, or `pop_task` making a step. -/
inductive action where
  | producer_push (log_info : logging_info)
  | consumer
  deriving DecidableEq, Repr

/-- Effect of one scheduled action. -/
def engine.step {F : Type} (s : engine F) : action → engine F
  | action.producer_push e => s.push e
  | action.consumer => s.pop_task_step

/-- Effect of a schedule, left to right. -/
def engine.run {F : Type} (s : engine F) (schedule : List action) : engine F :=
  schedule.foldl engine.step s

/-- The engine at the moment teardown begins: launched on `queue`, then run
under the schedule `pre`. -/
def engine.before_teardown {F : Type} (_loggers : logger_map F) (queue : List logging_info)
    (pre : List action) : engine F :=
  (engine.init _loggers queue).run pre

/-- The engine some time after teardown began: `~log_resource` sets the flag,
the schedule `mid` runs, `~log_resource` pushes the final message, the
schedule `post` runs. -/
def engine.after_teardown {F : Type} (_loggers : logger_map F) (queue : List logging_info)
    (pre mid post : List action) (now tid : Nat) : engine F :=
  ((((engine.before_teardown _loggers queue pre).set_exit).run mid).push_final_message
    now tid).run post

/-- The steps of dispatching a sequence of events one after the other: the
steps of `_handle_log_info` on the first, then on the second, and so on. -/
def dispatch_steps_of {F : Type} (L : logger_map F) : List logging_info →
    List (dispatch_step F)
  | [] => []
  | e :: rest => (_handle_log_info L e).steps ++ dispatch_steps_of L rest

/-- Invariant of every engine state: the registry is the one given, what was
handled followed by what is queued is what was accepted, `pop_task` has not
been left by an exception, and the dispatch steps performed are those of
`_handle_log_info` on the handled events, in order. -/
def engine.consistent {F : Type} (L : logger_map F) (s : engine F) : Prop :=
  s._loggers = L ∧ s.handled ++ s._log_queue = s.accepted ∧
  s.pc ≠ pop_task_pc.aborted ∧ s.steps = dispatch_steps_of L s.handled

/-- Invariant while the flag is clear: `pop_task` is in its first loop. -/
def engine.running {F : Type} (L : logger_map F) (s : engine F) : Prop :=
  s.consistent L ∧ s._exit = false ∧
  (s.pc = pop_task_pc.loop_test ∨ s.pc = pop_task_pc.pop_wait)

/-- Invariant once the flag is set: the elements `A` accepted before that
moment stay a leading part of what is accepted, and have all been handled, in
order, when `pop_task` has finished. -/
def engine.draining {F : Type} (L : logger_map F) (A : List logging_info) (s : engine F) :
    Prop :=
  s.consistent L ∧ s._exit = true ∧ A <+: s.accepted ∧
  (s.pc = pop_task_pc.finished → A <+: s.handled)

/-- After the final message has been pushed `pop_task` is not blocked: when it
sits in the blocking pop the queue is not empty. -/
def engine.unblocked {F : Type} (s : engine F) : Prop :=
  s.pc = pop_task_pc.pop_wait → s._log_queue ≠ []

/-! ## Teardown `~log_resource` (log.cpp lines 228-256) -/

/-- The statements of `~log_resource`, in the vocabulary of the teardown
protocol. -/
inductive teardown_step where
  | set_exit                   -- `_exit = true`
  | push_final_message         -- `push(final_message)`
  | push_fastpath_final        -- `push_fastpath("")`
  | join_pop_task              -- `_pop_task->join()`
  | lock_logmap                -- the `lock_guard` on `_logmap_mutex` is taken
  | clear_loggers              -- `_loggers.clear()`
  | unlock_logmap              -- the `lock_guard` goes out of scope
  | reset_pop_task             -- `_pop_task.reset()`
  | join_pop_fastpath_task     -- `_pop_fastpath_task->join()`
  | reset_pop_fastpath_task    -- `_pop_fastpath_task.reset()`
  deriving DecidableEq, Repr

/-- The statements executed by `~log_resource`, in program order; the
statements about the fastpath are compiled out under
`UHD_LOG_FASTPATH_DISABLE`. -/
def destructor_steps (fastpath_disable : Bool) : List teardown_step :=
  [teardown_step.set_exit, teardown_step.push_final_message]
  ++ (if fastpath_disable then [] else [teardown_step.push_fastpath_final])
  ++ [teardown_step.join_pop_task, teardown_step.lock_logmap,
      teardown_step.clear_loggers, teardown_step.unlock_logmap,
      teardown_step.reset_pop_task]
  ++ (if fastpath_disable then []
      else [teardown_step.join_pop_fastpath_task, teardown_step.reset_pop_fastpath_task])

/-- Position of a statement in the teardown sequence (the length of the
sequence when it does not occur). -/
def teardown_position (fastpath_disable : Bool) (t : teardown_step) : Nat :=
  (destructor_steps fastpath_disable).indexOf t

/-! ## The registry mutex around sink invocations -/

/-- For each sink invocation of a step sequence, in order: whether
`_logmap_mutex` is held at that moment (`held` is the state before the first
step). -/
def held_at_invocations {F : Type} : Bool → List (dispatch_step F) → List Bool
  | _, [] => []
  | _, dispatch_step.lock_acquire :: rest => held_at_invocations true rest
  | _, dispatch_step.lock_release :: rest => held_at_invocations false rest
  | held, dispatch_step.invoke _ _ _ :: rest => held :: held_at_invocations held rest

/-- The steps of one dispatch when every invoked sink executes `body` on the
same thread before it returns. -/
def with_sink_body {F : Type} (body : List (dispatch_step F)) :
    List (dispatch_step F) → List (dispatch_step F)
  | [] => []
  | dispatch_step.invoke k f a :: rest =>
    dispatch_step.invoke k f a :: body ++ with_sink_body body rest
  | st :: rest => st :: with_sink_body body rest

/-- The locking steps of `add_logger` and of `set_log_level`: a `lock_guard`
on `_logmap_mutex` around the map update. -/
def registry_mutation_steps (F : Type) : List (dispatch_step F) :=
  [dispatch_step.lock_acquire, dispatch_step.lock_release]

/-- Run a step sequence of one thread against the non-recursive
`std::mutex`: `none` when the thread tries to take the mutex it already
holds, otherwise whether the mutex is held at the end. -/
def mutex_run {F : Type} : Bool → List (dispatch_step F) → Option Bool
  | held, [] => some held
  | held, dispatch_step.lock_acquire :: rest => if held then none else mutex_run true rest
  | _, dispatch_step.lock_release :: rest => mutex_run false rest
  | held, dispatch_step.invoke _ _ _ :: rest => mutex_run held rest

/-! ## Severity tokens, as the specification and as the code read them -/

/-- The seven severities, in increasing order. -/
def severity_levels : List severity_level :=
  [severity_level.trace, severity_level.debug, severity_level.info, severity_level.warning,
   severity_level.error, severity_level.fatal, severity_level.off]

/-- The lowercase name of a severity (the enumerator name, as the macro
`if_loglevel_equal` stringises it). -/
def severity_level.name : severity_level → String
  | severity_level.trace => "trace"
  | severity_level.debug => "debug"
  | severity_level.info => "info"
  | severity_level.warning => "warning"
  | severity_level.error => "error"
  | severity_level.fatal => "fatal"
  | severity_level.off => "off"

/-- The decimal ordinal of a severity, `"0"` to `"6"`. -/
def severity_level.ordinal_string : severity_level → String
  | severity_level.trace => "0"
  | severity_level.debug => "1"
  | severity_level.info => "2"
  | severity_level.warning => "3"
  | severity_level.error => "4"
  | severity_level.fatal => "5"
  | severity_level.off => "6"

/-- The seven severity names. -/
def severity_names : List String := severity_levels.map severity_level.name

/-- The seven decimal ordinals. -/
def severity_ordinal_strings : List String :=
  severity_levels.map severity_level.ordinal_string

/-- The severity named by a token in the words of the specification: one of
the seven names, or one of the ordinals 0 to 6. -/
def named_severity (token : String) : Option severity_level :=
  severity_levels.find? (fun l => decide (l.name = token) || decide (l.ordinal_string = token))

/-- The number a string starts with: the value of its longest leading run of
decimal digits. -/
def leading_number (s : String) : Nat := digits_value (s.data.takeWhile isdigit)

/-- The severity a token stands for when read the way `_get_log_level` reads
it: a token starting with a digit stands for the severity whose ordinal is the
number it starts with, provided that number is at most 5 (`fatal`); any other
token stands for the severity it is the name of. -/
def token_severity (token : String) : Option severity_level :=
  if isdigit (front token) then
    (severity_levels.take 6).get? (leading_number token)
  else severity_levels.find? (fun l => decide (l.name = token))

/-- The token is not a rejected number: when it starts with a digit, the
number it starts with is at most 5. -/
def reads_cleanly (token : String) : Prop :=
  isdigit (front token) = true → leading_number token ≤ 5

instance (token : String) : Decidable (reads_cleanly token) :=
  inferInstanceAs (Decidable (isdigit (front token) = true → leading_number token ≤ 5))

/-- The global level the specification claims: the severity named by
`UHD_LOG_LEVEL` when set, not empty and recognised, else the one named by
`UHD_LOG_MIN_LEVEL` when defined and recognised, else the default `off`. -/
def claimed_global_level (cfg : build_config) (getenv : environment) : severity_level :=
  match (env_set_nonempty (getenv "UHD_LOG_LEVEL")).bind named_severity with
  | some l => l
  | none =>
    match cfg.UHD_LOG_MIN_LEVEL.bind named_severity with
    | some l => l
    | none => severity_level.off

/-- The same priority chain with tokens read the way `_get_log_level` reads
them. -/
def global_level_by_tokens (cfg : build_config) (getenv : environment) : severity_level :=
  match (env_set_nonempty (getenv "UHD_LOG_LEVEL")).bind token_severity with
  | some l => l
  | none =>
    match cfg.UHD_LOG_MIN_LEVEL.bind token_severity with
    | some l => l
    | none => severity_level.off

/-- The severity tokens the constructor hands to `_get_log_level`. -/
def level_tokens (cfg : build_config) (getenv : environment) : List String :=
  cfg.UHD_LOG_MIN_LEVEL.toList
  ++ (env_set_nonempty (getenv "UHD_LOG_LEVEL")).toList
  ++ (if cfg.UHD_LOG_CONSOLE_DISABLE then []
      else cfg.UHD_LOG_CONSOLE_LEVEL.toList
        ++ (env_set_nonempty (getenv "UHD_LOG_CONSOLE_LEVEL")).toList)
  ++ cfg.UHD_LOG_FILE_LEVEL.toList
  ++ (env_set_nonempty (getenv "UHD_LOG_FILE_LEVEL")).toList

/-- No severity token of the configuration is a rejected number: none starts
with a number above 5. -/
def config_reads_cleanly (cfg : build_config) (getenv : environment) : Prop :=
  ∀ t ∈ level_tokens cfg getenv, reads_cleanly t

instance (cfg : build_config) (getenv : environment) :
    Decidable (config_reads_cleanly cfg getenv) :=
  inferInstanceAs (Decidable (∀ t ∈ level_tokens cfg getenv, reads_cleanly t))

/-- The level a pair of optional tokens (macro, then environment variable)
resolves to, starting from `trace`, with tokens read the way `_get_log_level`
reads them. -/
def sink_level_by_tokens (macro_token env_token : Option String) : severity_level :=
  (env_token.bind token_severity).getD
    ((macro_token.bind token_severity).getD severity_level.trace)

/-- The registry `_setup_console_logging` leaves when it starts from the empty
one and no token is a rejected number. -/
def loggers_after_console (U : Type) (cfg : build_config) (getenv : environment) :
    logger_map (sink U) :=
  if cfg.UHD_LOG_CONSOLE_DISABLE then []
  else [(UHD_CONSOLE_LOGGER_KEY,
    (sink_level_by_tokens cfg.UHD_LOG_CONSOLE_LEVEL
      (env_set_nonempty (getenv "UHD_LOG_CONSOLE_LEVEL")), some sink.console_log))]

/-- The registry the constructor leaves when no token is a rejected number. -/
def loggers_after_setup (U : Type) (cfg : build_config) (getenv : environment)
    (open_succeeds : String → Bool) : logger_map (sink U) :=
  if resolve_log_file_target cfg getenv ≠ "" then
    (loggers_after_console U cfg getenv).subscript_update UHD_FILE_LOGGER_KEY
      (fun _ => (sink_level_by_tokens cfg.UHD_LOG_FILE_LEVEL
          (env_set_nonempty (getenv "UHD_LOG_FILE_LEVEL")),
        some (sink.file_log
          (file_logger_backend.ctor open_succeeds (resolve_log_file_target cfg getenv)))))
  else loggers_after_console U cfg getenv

/-! ## Sample data -/

/-- A registry with two user sinks, numbered 0 and 1. -/
def sample_registry : logger_map Nat :=
  [("console", (severity_level.info, some 0)), ("file", (severity_level.error, some 1))]

/-- A registry holding the console sink only. -/
def console_only_registry : logger_map Nat :=
  [("console", (severity_level.trace, some 0))]

/-- A registry whose first entry holds an empty function object (as left by
`set_log_level` on an absent key, or by `add_logger` with an empty
`std::function`) and whose second entry holds user sink 1. -/
def registry_with_empty_entry : logger_map Nat :=
  [("a", (severity_level.trace, none)), ("zzz", (severity_level.trace, some 1))]

/-- A second event, of severity `error`. -/
def second_event : logging_info :=
  { logging_info.mk6 8 severity_level.error "x300_impl.cpp" 57 "X300" 1 with
    message := "timeout" }

/-- An event of severity `warning` with a non-empty message. -/
def sample_event : logging_info :=
  { logging_info.mk6 7 severity_level.warning "x300_impl.cpp" 42 "X300" 1 with
    message := "overflow" }

/-- A build with none of the macros defined. -/
def default_build : build_config :=
  { UHD_LOG_MIN_LEVEL := none, UHD_LOG_CONSOLE_DISABLE := false,
    UHD_LOG_CONSOLE_LEVEL := none, UHD_LOG_FILE_LEVEL := none, UHD_LOG_FILE := none,
    UHD_LOG_FASTPATH_DISABLE := false }

/-- A build compiled with `UHD_LOG_MIN_LEVEL=info`. -/
def build_min_info : build_config :=
  { default_build with UHD_LOG_MIN_LEVEL := some "info" }

/-- An environment that sets only `UHD_LOG_LEVEL=6`. -/
def env_level_six : environment :=
  fun name => if name = "UHD_LOG_LEVEL" then some "6" else none

/-- An environment that sets only `UHD_LOG_LEVEL=3abc`. -/
def env_level_3abc : environment :=
  fun name => if name = "UHD_LOG_LEVEL" then some "3abc" else none

/-- An environment that sets only `UHD_LOG_LEVEL=debug`. -/
def env_level_debug : environment :=
  fun name => if name = "UHD_LOG_LEVEL" then some "debug" else none

/-- An environment that sets only `UHD_LOG_FILE=/nonexistent/uhd.log`. -/
def env_log_file : environment :=
  fun name => if name = "UHD_LOG_FILE" then some "/nonexistent/uhd.log" else none

/-- A file system in which no file can be opened. -/
def nothing_opens : String → Bool := fun _ => false

/-! # Theorems -/

/-! ## The key order -/

theorem lex_less_irrefl (a : List Char) : lex_less a a = false := by
  induction a with
  | nil => rfl
  | cons x rest ih => simp [lex_less, ih]

theorem lex_less_trans (a b c : List Char) (h1 : lex_less a b = true)
    (h2 : lex_less b c = true) : lex_less a c = true := by
  induction a generalizing b c with
  | nil =>
    cases b with
    | nil => simp [lex_less] at h1
    | cons y bs =>
      cases c with
      | nil => simp [lex_less] at h2
      | cons z cs => rfl
  | cons x as ih =>
    cases b with
    | nil => simp [lex_less] at h1
    | cons y bs =>
      cases c with
      | nil => simp [lex_less] at h2
      | cons z cs =>
        simp only [lex_less] at h1 h2 ⊢
        rcases lt_trichotomy x y with hxy | hxy | hxy
        · rcases lt_trichotomy y z with hyz | hyz | hyz
          · simp [lt_trans hxy hyz]
          · subst hyz; simp [hxy]
          · simp [hyz, not_lt_of_gt hyz] at h2
        · subst hxy
          rcases lt_trichotomy x z with hyz | hyz | hyz
          · simp [hyz]
          · subst hyz
            simp only [lt_irrefl, if_false] at h1 h2 ⊢
            exact ih bs cs h1 h2
          · simp [hyz, not_lt_of_gt hyz] at h2
        · simp [hxy, not_lt_of_gt hxy] at h1

theorem lex_less_total (a b : List Char) (h1 : lex_less a b = false) (h2 : a ≠ b) :
    lex_less b a = true := by
  induction a generalizing b with
  | nil =>
    cases b with
    | nil => exact absurd rfl h2
    | cons y bs => simp [lex_less] at h1
  | cons x as ih =>
    cases b with
    | nil => rfl
    | cons y bs =>
      simp only [lex_less] at h1 ⊢
      rcases lt_trichotomy x y with hxy | hxy | hxy
      · simp [hxy] at h1
      · subst hxy
        simp only [lt_irrefl, if_false] at h1 ⊢
        exact ih bs h1 (fun h => h2 (by rw [h]))
      · simp [hxy]

theorem key_less_ne {a b : String} (h : key_less a b = true) : a ≠ b := by
  intro hab
  subst hab
  simp [key_less, lex_less_irrefl] at h

theorem key_less_trans {a b c : String} (h1 : key_less a b = true)
    (h2 : key_less b c = true) : key_less a c = true :=
  lex_less_trans _ _ _ h1 h2

theorem key_less_total {a b : String} (h1 : ¬ key_less a b = true) (h2 : a ≠ b) :
    key_less b a = true := by
  apply lex_less_total
  · simpa [key_less] using h1
  · intro h
    exact h2 (String.ext h)

theorem key_less_asymm {a b : String} (h : key_less a b = true) : ¬ key_less b a = true := by
  intro h2
  exact key_less_ne (key_less_trans h h2) rfl

/-! ## Registry lookups after `operator[]` -/

theorem logger_map.subscript_update_cons_eq {F : Type} (rest : logger_map F) (key : String)
    (v : level_logfn_pair F) (g : level_logfn_pair F → level_logfn_pair F) :
    logger_map.subscript_update ((key, v) :: rest) key g = (key, g v) :: rest := by
  simp [logger_map.subscript_update]

theorem logger_map.subscript_update_cons_lt {F : Type} (rest : logger_map F) (key k : String)
    (v : level_logfn_pair F) (g : level_logfn_pair F → level_logfn_pair F)
    (h1 : key ≠ k) (h2 : key_less key k = true) :
    logger_map.subscript_update ((k, v) :: rest) key g =
      (key, g (level_logfn_pair.value_init F)) :: (k, v) :: rest := by
  simp [logger_map.subscript_update, h1, h2]

theorem logger_map.subscript_update_cons_gt {F : Type} (rest : logger_map F) (key k : String)
    (v : level_logfn_pair F) (g : level_logfn_pair F → level_logfn_pair F)
    (h1 : key ≠ k) (h2 : ¬ key_less key k = true) :
    logger_map.subscript_update ((k, v) :: rest) key g =
      (k, v) :: logger_map.subscript_update rest key g := by
  simp [logger_map.subscript_update, h1, h2]

theorem logger_map.ordered_cons {F : Type} (k0 : String) (v0 : level_logfn_pair F)
    (rest : logger_map F) :
    logger_map.ordered ((k0, v0) :: rest) ↔
      (∀ a ∈ logger_map.keys rest, key_less k0 a = true) ∧ logger_map.ordered rest := by
  simp only [logger_map.ordered, logger_map.keys, List.map_cons, List.pairwise_cons]

theorem logger_map.keys_cons {F : Type} (k0 : String) (v0 : level_logfn_pair F)
    (rest : logger_map F) :
    logger_map.keys ((k0, v0) :: rest) = k0 :: logger_map.keys rest := rfl

theorem logger_map.find_eq_none_of_lt {F : Type} (m : logger_map F) (key : String)
    (h : ∀ k ∈ m.keys, key_less key k = true) : m.find key = none := by
  induction m with
  | nil => rfl
  | cons e rest ih =>
    obtain ⟨k0, v0⟩ := e
    rw [logger_map.keys_cons] at h
    have h0 : key_less key k0 = true := h k0 (List.mem_cons_self _ _)
    have hne : key ≠ k0 := key_less_ne h0
    simp only [logger_map.find, hne, if_false]
    exact ih (fun k hk => h k (List.mem_cons_of_mem _ hk))

theorem logger_map.find_subscript_update {F : Type} (m : logger_map F) (hm : m.ordered)
    (key : String) (g : level_logfn_pair F → level_logfn_pair F) (k : String) :
    (m.subscript_update key g).find k =
      if k = key then some (g ((m.find key).getD (level_logfn_pair.value_init F)))
      else m.find k := by
  induction m with
  | nil =>
    by_cases hk : k = key <;> simp [logger_map.subscript_update, logger_map.find, hk]
  | cons e rest ih =>
    obtain ⟨k0, v0⟩ := e
    have hm2 := (logger_map.ordered_cons k0 v0 rest).mp hm
    have ih := ih hm2.2
    by_cases h1 : key = k0
    · subst h1
      rw [logger_map.subscript_update_cons_eq]
      by_cases hk : k = key <;> simp [logger_map.find, hk]
    · by_cases h2 : key_less key k0 = true
      · rw [logger_map.subscript_update_cons_lt _ _ _ _ _ h1 h2]
        have hnone : logger_map.find rest key = none :=
          logger_map.find_eq_none_of_lt rest key (fun a ha => key_less_trans h2 (hm2.1 a ha))
        by_cases hk : k = key
        · subst hk
          simp [logger_map.find, h1, hnone]
        · simp [logger_map.find, hk]
      · rw [logger_map.subscript_update_cons_gt _ _ _ _ _ h1 h2]
        by_cases hk : k = key
        · subst hk
          simp [logger_map.find, h1, ih]
        · by_cases hk0 : k = k0
          · subst hk0
            simp [logger_map.find, hk]
          · simp [logger_map.find, hk, hk0, ih]

theorem logger_map.keys_subscript_update {F : Type} (m : logger_map F) (key : String)
    (g : level_logfn_pair F → level_logfn_pair F) :
    ∀ k, k ∈ (m.subscript_update key g).keys ↔ k = key ∨ k ∈ m.keys := by
  induction m with
  | nil => intro k; simp [logger_map.subscript_update, logger_map.keys]
  | cons e rest ih =>
    obtain ⟨k0, v0⟩ := e
    intro k
    by_cases h1 : key = k0
    · subst h1
      rw [logger_map.subscript_update_cons_eq]
      simp [logger_map.keys]
    · by_cases h2 : key_less key k0 = true
      · rw [logger_map.subscript_update_cons_lt _ _ _ _ _ h1 h2]
        simp [logger_map.keys]
      · rw [logger_map.subscript_update_cons_gt _ _ _ _ _ h1 h2]
        rw [logger_map.keys_cons, logger_map.keys_cons, List.mem_cons, List.mem_cons, ih k]
        tauto

theorem logger_map.ordered_subscript_update {F : Type} (m : logger_map F) (hm : m.ordered)
    (key : String) (g : level_logfn_pair F → level_logfn_pair F) :
    (m.subscript_update key g).ordered := by
  induction m with
  | nil => simp [logger_map.subscript_update, logger_map.ordered, logger_map.keys]
  | cons e rest ih =>
    obtain ⟨k0, v0⟩ := e
    have hm2 := (logger_map.ordered_cons k0 v0 rest).mp hm
    by_cases h1 : key = k0
    · subst h1
      rw [logger_map.subscript_update_cons_eq]
      exact (logger_map.ordered_cons _ _ _).mpr hm2
    · by_cases h2 : key_less key k0 = true
      · rw [logger_map.subscript_update_cons_lt _ _ _ _ _ h1 h2]
        refine (logger_map.ordered_cons _ _ _).mpr ⟨?_, hm⟩
        intro a ha
        rw [logger_map.keys_cons] at ha
        rcases List.mem_cons.mp ha with ha | ha
        · exact ha ▸ h2
        · exact key_less_trans h2 (hm2.1 a ha)
      · rw [logger_map.subscript_update_cons_gt _ _ _ _ _ h1 h2]
        have hlt : key_less k0 key = true := key_less_total h2 h1
        refine (logger_map.ordered_cons _ _ _).mpr ⟨?_, ih hm2.2⟩
        intro a ha
        rcases (logger_map.keys_subscript_update rest key g a).mp ha with ha | ha
        · exact ha ▸ hlt
        · exact hm2.1 a ha

theorem logger_map.ordered_keys_nodup {F : Type} (m : logger_map F) (hm : m.ordered) :
    m.keys.Nodup := by
  unfold logger_map.ordered at hm
  exact hm.imp (fun h => key_less_ne h)

/-! ## Dispatch -/

theorem severity_level.not_lt_iff (a b : severity_level) : ¬ a < b ↔ b ≤ a := by
  show ¬ a.ordinal < b.ordinal ↔ b.ordinal ≤ a.ordinal
  exact not_lt

theorem dispatch_loop_threw {F : Type} (m : logger_map F) (log_info : logging_info)
    (hc : all_callable m) : (dispatch_loop m log_info).2 = false := by
  induction m with
  | nil => rfl
  | cons e rest ih =>
    obtain ⟨k, thr, fn⟩ := e
    have hrest : all_callable rest := fun x hx => hc x (List.mem_cons_of_mem _ hx)
    have hfn : fn ≠ none := hc (k, thr, fn) (List.mem_cons_self _ _)
    by_cases hlt : log_info.verbosity < thr
    · simpa [dispatch_loop, hlt] using ih hrest
    · cases fn with
      | none => exact absurd rfl hfn
      | some f => simpa [dispatch_loop, hlt] using ih hrest

theorem invocations_append {F : Type} (xs ys : List (dispatch_step F)) :
    invocations (xs ++ ys) = invocations xs ++ invocations ys := by
  induction xs with
  | nil => rfl
  | cons x rest ih => cases x <;> simp [invocations, ih]

theorem invocations_dispatch_loop_mem {F : Type} (m : logger_map F) (log_info : logging_info)
    (c : invocation F) (hc : c ∈ invocations (dispatch_loop m log_info).1) :
    ∃ thr, (c.key, thr, some c.fn) ∈ m ∧ thr ≤ log_info.verbosity ∧ c.arg = log_info := by
  induction m with
  | nil => simp [dispatch_loop, invocations] at hc
  | cons e rest ih =>
    obtain ⟨k, thr, fn⟩ := e
    by_cases hlt : log_info.verbosity < thr
    · simp only [dispatch_loop, hlt, if_true] at hc
      obtain ⟨t, h1, h2⟩ := ih hc
      exact ⟨t, List.mem_cons_of_mem _ h1, h2⟩
    · cases fn with
      | none => simp [dispatch_loop, hlt, invocations] at hc
      | some f =>
        simp only [dispatch_loop, hlt, if_false, invocations, List.mem_cons] at hc
        rcases hc with hc | hc
        · subst hc
          exact ⟨thr, List.mem_cons_self _ _, (severity_level.not_lt_iff _ _).mp hlt, rfl⟩
        · obtain ⟨t, h1, h2⟩ := ih hc
          exact ⟨t, List.mem_cons_of_mem _ h1, h2⟩

theorem invocations_dispatch_loop_filter_absent {F : Type} (m : logger_map F)
    (log_info : logging_info) (k : String) (hk : k ∉ m.keys) :
    (invocations (dispatch_loop m log_info).1).filter (fun c => decide (c.key = k)) = [] := by
  rw [List.filter_eq_nil_iff]
  intro c hc
  obtain ⟨thr, hmem, _⟩ := invocations_dispatch_loop_mem m log_info c hc
  have : c.key ∈ m.keys := List.mem_map.mpr ⟨_, hmem, rfl⟩
  intro hck
  simp only [decide_eq_true_eq] at hck
  exact hk (hck ▸ this)

theorem invocations_dispatch_loop_filter {F : Type} (m : logger_map F) (log_info : logging_info)
    (hk : m.keys.Nodup) (hc : all_callable m) (k : String) (thr : severity_level) (f : F)
    (hmem : (k, thr, some f) ∈ m) :
    (invocations (dispatch_loop m log_info).1).filter (fun c => decide (c.key = k)) =
      if thr ≤ log_info.verbosity then [{ key := k, fn := f, arg := log_info }] else [] := by
  induction m with
  | nil => simp at hmem
  | cons e rest ih =>
    obtain ⟨k0, thr0, fn0⟩ := e
    have hrest : all_callable rest := fun x hx => hc x (List.mem_cons_of_mem _ hx)
    have hnd : k0 ∉ logger_map.keys rest ∧ (logger_map.keys rest).Nodup := by
      simpa [logger_map.keys] using hk
    rcases List.mem_cons.mp hmem with heq | hin
    · -- the entry is the head
      have h1 : k = k0 := by injection heq
      have h2 : thr = thr0 ∧ some f = fn0 := by
        have : (thr, some f) = (thr0, fn0) := by injection heq
        exact Prod.mk.inj this
      obtain ⟨h2, h3⟩ := h2
      subst h1; subst h2; subst h3
      have habs := invocations_dispatch_loop_filter_absent rest log_info k hnd.1
      by_cases hlt : log_info.verbosity < thr
      · have hle : ¬ thr ≤ log_info.verbosity := fun h =>
          (severity_level.not_lt_iff _ _).mpr h hlt
        simp only [dispatch_loop, hlt, if_true, hle, if_false]
        exact habs
      · have hle : thr ≤ log_info.verbosity := (severity_level.not_lt_iff _ _).mp hlt
        simp only [dispatch_loop, hlt, if_false, hle, if_true, invocations]
        rw [List.filter_cons_of_pos (by simp), habs]
    · -- the entry is in the tail
      have hkk : k ∈ logger_map.keys rest := List.mem_map.mpr ⟨_, hin, rfl⟩
      have hne : k0 ≠ k := fun h => hnd.1 (h ▸ hkk)
      have ih := ih hnd.2 hrest hin
      by_cases hlt : log_info.verbosity < thr0
      · simp only [dispatch_loop, hlt, if_true]
        exact ih
      · cases fn0 with
        | none => exact absurd rfl (hc (k0, thr0, none) (List.mem_cons_self _ _))
        | some f0 =>
          simp only [dispatch_loop, hlt, if_false, invocations]
          rw [List.filter_cons_of_neg (by simpa using hne)]
          exact ih

/-- Claim C1 as stated fails on a registry that holds an empty function
object: on the registry with `a -> (trace, empty)` and `zzz -> (trace, sink 1)`
and an event of severity `warning` with a non-empty message, the loop calls
the empty function object of `a` first, the call throws
`std::bad_function_call`, and the sink registered under `zzz`, whose threshold
is below the verbosity of the event, is never invoked. -/
theorem handle_log_info_stops_at_empty_function :
    registry_with_empty_entry.keys.Nodup ∧
    ("zzz", severity_level.trace, some 1) ∈ registry_with_empty_entry ∧
    severity_level.trace ≤ sample_event.verbosity ∧
    sample_event.message ≠ "" ∧
    (_handle_log_info registry_with_empty_entry sample_event).threw = true ∧
    invocations (_handle_log_info registry_with_empty_entry sample_event).steps = [] := by
  refine ⟨by decide, by decide, by decide, by decide, rfl, rfl⟩

/-- Claim C1, amended. For every event and every registry (a map, so with
pairwise distinct keys) whose entries all hold a callable sink,
`_handle_log_info` performs no step at all when the message is empty; when the
message is not empty the call returns normally, every registered sink whose
threshold is at most the verbosity of the event is invoked exactly once, with
the event as argument, every registered sink whose threshold is greater is not
invoked, and nothing else is invoked. -/
theorem handle_log_info_dispatches_by_threshold {F : Type} (_loggers : logger_map F)
    (log_info : logging_info) (hk : _loggers.keys.Nodup) (hc : all_callable _loggers) :
    (log_info.message = "" → (_handle_log_info _loggers log_info).steps = []) ∧
    (log_info.message ≠ "" →
      (_handle_log_info _loggers log_info).threw = false ∧
      (∀ k thr f, (k, thr, some f) ∈ _loggers →
        (invocations (_handle_log_info _loggers log_info).steps).filter
            (fun c => decide (c.key = k)) =
          if thr ≤ log_info.verbosity then [{ key := k, fn := f, arg := log_info }] else []) ∧
      (∀ c ∈ invocations (_handle_log_info _loggers log_info).steps,
        ∃ thr, (c.key, thr, some c.fn) ∈ _loggers ∧ thr ≤ log_info.verbosity ∧
          c.arg = log_info)) := by
  have hthrew := dispatch_loop_threw _loggers log_info hc
  have hinv : log_info.message ≠ "" →
      invocations (_handle_log_info _loggers log_info).steps =
        invocations (dispatch_loop _loggers log_info).1 := by
    intro hmsg
    simp [_handle_log_info, hmsg, hthrew, invocations, invocations_append]
  refine ⟨fun hmsg => by simp [_handle_log_info, hmsg], fun hmsg => ⟨?_, ?_, ?_⟩⟩
  · simp [_handle_log_info, hmsg, hthrew]
  · intro k thr f hmem
    rw [hinv hmsg]
    exact invocations_dispatch_loop_filter _loggers log_info hk hc k thr f hmem
  · intro c hcm
    rw [hinv hmsg] at hcm
    exact invocations_dispatch_loop_mem _loggers log_info c hcm

theorem handle_log_info_dispatches_by_threshold_witness :
    sample_registry.keys.Nodup ∧ all_callable sample_registry ∧
    (sample_event.message ≠ "" →
      (_handle_log_info sample_registry sample_event).threw = false ∧
      (∀ k thr f, (k, thr, some f) ∈ sample_registry →
        (invocations (_handle_log_info sample_registry sample_event).steps).filter
            (fun c => decide (c.key = k)) =
          if thr ≤ sample_event.verbosity then [{ key := k, fn := f, arg := sample_event }]
          else []) ∧
      (∀ c ∈ invocations (_handle_log_info sample_registry sample_event).steps,
        ∃ thr, (c.key, thr, some c.fn) ∈ sample_registry ∧ thr ≤ sample_event.verbosity ∧
          c.arg = sample_event)) :=
  ⟨by decide, by simp [all_callable, sample_registry],
   (handle_log_info_dispatches_by_threshold sample_registry sample_event (by decide)
      (by simp [all_callable, sample_registry])).2⟩

/-! ## `set_log_level` -/

theorem logger_map.find_isSome_iff_mem_keys {F : Type} (m : logger_map F) (key : String) :
    (m.find key).isSome = true ↔ key ∈ m.keys := by
  induction m with
  | nil => simp [logger_map.find, logger_map.keys]
  | cons e rest ih =>
    obtain ⟨k0, v0⟩ := e
    by_cases h : key = k0
    · simp [logger_map.find, logger_map.keys, h]
    · simp only [logger_map.keys] at ih
      simp [logger_map.find, logger_map.keys, h, ih]

theorem logger_map.keys_subscript_update_present {F : Type} (m : logger_map F)
    (hm : m.ordered) (key : String) (g : level_logfn_pair F → level_logfn_pair F)
    (h : key ∈ m.keys) : (m.subscript_update key g).keys = m.keys := by
  induction m with
  | nil => simp [logger_map.keys] at h
  | cons e rest ih =>
    obtain ⟨k0, v0⟩ := e
    have hm2 := (logger_map.ordered_cons k0 v0 rest).mp hm
    by_cases h1 : key = k0
    · subst h1
      rw [logger_map.subscript_update_cons_eq]
      rfl
    · have hr : key ∈ logger_map.keys rest := by
        rw [logger_map.keys_cons] at h
        rcases List.mem_cons.mp h with h | h
        · exact absurd h h1
        · exact h
      have h2 : ¬ key_less key k0 = true := key_less_asymm (hm2.1 key hr)
      rw [logger_map.subscript_update_cons_gt _ _ _ _ _ h1 h2, logger_map.keys_cons,
        logger_map.keys_cons, ih hm2.2 hr]

/-- The frame half of claim C3: on a registry that has an entry under `key`,
`set_log_level(key, level)` replaces the threshold of that entry, keeps its
sink function, keeps every other entry and keeps the set of keys. -/
theorem set_log_level_present_key_frame {F : Type} (_loggers : logger_map F)
    (hm : _loggers.ordered) (key : String) (level thr : severity_level) (fn : log_fn_t F)
    (h : _loggers.find key = some (thr, fn)) :
    (set_log_level _loggers key level).find key = some (level, fn) ∧
    (∀ k, k ≠ key → (set_log_level _loggers key level).find k = _loggers.find k) ∧
    (set_log_level _loggers key level).keys = _loggers.keys := by
  refine ⟨?_, ?_, ?_⟩
  · simp [set_log_level, logger_map.find_subscript_update _ hm, h]
  · intro k hk
    simp [set_log_level, logger_map.find_subscript_update _ hm, hk]
  · apply logger_map.keys_subscript_update_present _ hm
    rw [← logger_map.find_isSome_iff_mem_keys, h]
    rfl

/-- The other half of claim C3, in general: on a registry without an entry
under `key`, `set_log_level(key, level)` is not a no-op; it inserts an entry
under `key` whose threshold is `level` and whose function object is empty. -/
theorem set_log_level_absent_key_inserts {F : Type} (_loggers : logger_map F)
    (hm : _loggers.ordered) (key : String) (level : severity_level)
    (h : _loggers.find key = none) :
    (set_log_level _loggers key level).find key = some (level, none) ∧
    key ∈ (set_log_level _loggers key level).keys ∧ key ∉ _loggers.keys := by
  refine ⟨?_, ?_, ?_⟩
  · simp [set_log_level, logger_map.find_subscript_update _ hm, h,
      level_logfn_pair.value_init]
  · exact (logger_map.keys_subscript_update _ _ _ _).mpr (Or.inl rfl)
  · rw [← logger_map.find_isSome_iff_mem_keys, h]
    simp

/-- Claim C3 at a failing input. On the registry holding only the console
sink, the key `file` is absent; `set_file_level(warning)` (that is
`set_log_level("file", warning)`) is not a no-op: it adds an entry under
`file` with threshold `warning` and an empty function object, and the next
dispatch of an event of severity `warning` calls that empty function object
and is left by `std::bad_function_call`. -/
theorem set_log_level_absent_key_not_noop :
    console_only_registry.find "file" = none ∧
    set_file_level console_only_registry severity_level.warning =
      [("console", (severity_level.trace, some 0)),
       ("file", (severity_level.warning, none))] ∧
    set_file_level console_only_registry severity_level.warning ≠ console_only_registry ∧
    (_handle_log_info console_only_registry sample_event).threw = false ∧
    (_handle_log_info (set_file_level console_only_registry severity_level.warning)
      sample_event).threw = true := by
  refine ⟨rfl, rfl, by decide, rfl, rfl⟩

/-! ## The scoped log statement -/

theorem log.foldl_insert_inert (fragments : List String) (l : log) (h : l._log_it = false) :
    fragments.foldl log.insert l = l := by
  induction fragments with
  | nil => rfl
  | cons x rest ih => simp only [List.foldl_cons, log.insert, h, ih]; simp [ih]

theorem log.foldl_insert_active (fragments : List String) (l : log) (h : l._log_it = true) :
    fragments.foldl log.insert l =
      { l with _ss := fragments.foldl (fun acc x => acc ++ x) l._ss } := by
  induction fragments generalizing l with
  | nil => rfl
  | cons x rest ih =>
    simp only [List.foldl_cons]
    have hx : log.insert l x = { l with _ss := l._ss ++ x } := by simp [log.insert, h]
    rw [hx, ih { l with _ss := l._ss ++ x } h]

/-- Claim C2. A scoped log statement built with severity `verbosity` while the
global level is `global_level` is active exactly when
`verbosity >= global_level`. After any fragments have been streamed into it,
its destructor makes no `push` when it is inert, and exactly one `push` when it
is active, of the record carrying the constructor's time stamp, severity,
file, line, component and thread id and, as message, the concatenation of the
fragments. -/
theorem log_statement_pushes_iff_active (global_level : severity_level) (now : Nat)
    (verbosity : severity_level) (file : String) (line : Nat) (component : String)
    (thread_id : Nat) (fragments : List String) :
    ((log.ctor global_level now verbosity file line component thread_id)._log_it = true ↔
      verbosity ≥ global_level) ∧
    log.dtor (fragments.foldl log.insert
        (log.ctor global_level now verbosity file line component thread_id)) =
      if verbosity ≥ global_level then
        [{ time := now, verbosity := verbosity, file := file, line := line,
           component := component, thread_id := thread_id,
           message := fragments.foldl (fun acc x => acc ++ x) "" }]
      else [] := by
  by_cases h : verbosity ≥ global_level
  · have ha : (log.ctor global_level now verbosity file line component thread_id)._log_it
        = true := by simp [log.ctor, h]
    refine ⟨⟨fun _ => h, fun _ => ha⟩, ?_⟩
    rw [log.foldl_insert_active _ _ ha]
    simp [log.dtor, log.ctor, h, logging_info.mk6]
  · have ha : (log.ctor global_level now verbosity file line component thread_id)._log_it
        = false := by simp [log.ctor, h]
    refine ⟨⟨fun h2 => by rw [ha] at h2; exact absurd h2 (by decide), fun h2 => absurd h2 h⟩, ?_⟩
    rw [log.foldl_insert_inert _ _ ha]
    simp [log.dtor, ha, h]

/-! ## Severity tokens -/

theorem isdigit_iff (c : Char) : isdigit c = true ↔ 48 ≤ c.toNat ∧ c.toNat ≤ 57 := by
  simp [isdigit]

theorem stoi_of_digit_front (s : String) (h : isdigit (front s) = true) :
    stoi s =
      if INT_MAX < (leading_number s : Int) then Except.error stoi_exception.out_of_range
      else Except.ok (leading_number s : Int) := by
  obtain ⟨cs⟩ := s
  cases cs with
  | nil => simp [front, isdigit] at h
  | cons c rest =>
    have hc : isdigit c = true := h
    have hb := (isdigit_iff c).mp hc
    have hsp : isspace c = false := by
      simp only [isspace, Bool.or_eq_false_iff, decide_eq_false_iff_not, Bool.and_eq_false_iff]
      omega
    have hminus : c ≠ '-' := by
      intro hm
      rw [hm] at hb
      exact absurd hb.1 (by decide)
    have hplus : c ≠ '+' := by
      intro hm
      rw [hm] at hb
      exact absurd hb.1 (by decide)
    have hdrop : List.dropWhile isspace (c :: rest) = c :: rest := by
      simp [List.dropWhile, hsp]
    have htake : List.takeWhile isdigit (c :: rest) = c :: List.takeWhile isdigit rest := by
      simp [List.takeWhile, hc]
    have hnn : ¬ ((digits_value (c :: List.takeWhile isdigit rest) : Int) < INT_MIN) := by
      have : (0 : Int) ≤ (digits_value (c :: List.takeWhile isdigit rest) : Int) :=
        Int.ofNat_nonneg _
      have h2 : INT_MIN < 0 := by decide
      omega
    simp only [stoi, leading_number, hdrop, strip_sign, hminus, hplus, if_false, htake]
    simp [hnn]

theorem leading_number_fits_int (s : String) (h5 : leading_number s ≤ 5) :
    ¬ INT_MAX < (leading_number s : Int) := by
  have h : INT_MAX = 2147483647 := rfl
  rw [h]
  omega

theorem get_log_level_eq_token (s : String) (p : severity_level) (h : reads_cleanly s) :
    _get_log_level s p = Except.ok ((token_severity s).getD p) := by
  by_cases hd : isdigit (front s) = true
  · have h5 := h hd
    have hst := stoi_of_digit_front s hd
    rw [if_neg (leading_number_fits_int s h5)] at hst
    simp only [_get_log_level, hd, if_true, hst, token_severity]
    have hr : severity_level.trace.ordinal ≤ (leading_number s : Int) ∧
        (leading_number s : Int) ≤ severity_level.fatal.ordinal := by
      simp only [severity_level.ordinal]
      omega
    rw [if_pos hr]
    generalize leading_number s = n at h5
    interval_cases n <;> rfl
  · simp only [_get_log_level, hd, token_severity, severity_levels, List.find?,
      severity_level.name]
    by_cases h1 : s = "trace"
    · subst h1; rfl
    by_cases h2 : s = "debug"
    · subst h2; rfl
    by_cases h3 : s = "info"
    · subst h3; rfl
    by_cases h4 : s = "warning"
    · subst h4; rfl
    by_cases h5 : s = "error"
    · subst h5; rfl
    by_cases h6 : s = "fatal"
    · subst h6; rfl
    by_cases h7 : s = "off"
    · subst h7; rfl
    have e1 : ¬ "trace" = s := fun h => h1 h.symm
    have e2 : ¬ "debug" = s := fun h => h2 h.symm
    have e3 : ¬ "info" = s := fun h => h3 h.symm
    have e4 : ¬ "warning" = s := fun h => h4 h.symm
    have e5 : ¬ "error" = s := fun h => h5 h.symm
    have e6 : ¬ "fatal" = s := fun h => h6 h.symm
    have e7 : ¬ "off" = s := fun h => h7 h.symm
    simp [h1, h2, h3, h4, h5, h6, h7, e1, e2, e3, e4, e5, e6, e7]

/-- Claim C4 as stated fails at the ordinal of `off`: with previous level
`trace`, `_get_log_level("6", trace)` does not return `off`. The number 6 is
rejected by the range test against `fatal`, and the log statement of that
branch, run inside the constructor of the singleton, calls `log_rs()`
again. -/
theorem get_log_level_ordinal_six_not_off :
    severity_level.off.ordinal_string = "6" ∧
    _get_log_level severity_level.off.ordinal_string severity_level.trace =
      Except.error init_failure.log_rs_reentered ∧
    _get_log_level severity_level.off.ordinal_string severity_level.trace ≠
      Except.ok severity_level.off := by
  refine ⟨rfl, rfl, ?_⟩
  rw [show _get_log_level severity_level.off.ordinal_string severity_level.trace =
    Except.error init_failure.log_rs_reentered from rfl]
  intro h
  cases h

/-- Claim C4, amended. For every severity and every previous level,
`_get_log_level` returns that severity when given its lowercase name; for
each of the six severities `trace` to `fatal` it returns that severity when
given its decimal ordinal ("0" to "5"). -/
theorem get_log_level_names_and_ordinals (l p : severity_level) :
    _get_log_level l.name p = Except.ok l ∧
    (if l = severity_level.off then True
     else _get_log_level l.ordinal_string p = Except.ok l) := by
  cases l
  · exact ⟨rfl, rfl⟩
  · exact ⟨rfl, rfl⟩
  · exact ⟨rfl, rfl⟩
  · exact ⟨rfl, rfl⟩
  · exact ⟨rfl, rfl⟩
  · exact ⟨rfl, rfl⟩
  · exact ⟨rfl, trivial⟩

/-- Claim C5 as stated fails on strings that start with a digit: `"3abc"` is
neither a severity name nor a decimal ordinal, yet with previous level `trace`
the call returns `warning`, since `std::stoi` reads the leading 3 and ignores
the rest; `"99999999999"` is neither, and the call does not return at all but
is left by the `std::out_of_range` of `std::stoi`. -/
theorem get_log_level_digit_strings_not_fallback :
    "3abc" ∉ severity_names ∧ "3abc" ∉ severity_ordinal_strings ∧
    _get_log_level "3abc" severity_level.trace = Except.ok severity_level.warning ∧
    "99999999999" ∉ severity_names ∧ "99999999999" ∉ severity_ordinal_strings ∧
    _get_log_level "99999999999" severity_level.trace =
      Except.error (init_failure.stoi_threw stoi_exception.out_of_range) := by
  refine ⟨by decide, by decide, rfl, by decide, by decide, rfl⟩

theorem token_severity_eq_none (s : String) (hn : s ∉ severity_names)
    (hd : isdigit (front s) = false) : token_severity s = none := by
  simp only [token_severity, hd, Bool.false_eq_true, if_false]
  rw [List.find?_eq_none]
  intro l hl
  simp only [decide_eq_true_eq]
  intro hname
  exact hn (hname ▸ List.mem_map_of_mem _ hl)

/-- Claim C5, amended. For every string that is not one of the seven severity
names and does not start with a digit, and for every previous level,
`_get_log_level` terminates without throwing and returns the previous level.
This covers the empty string and unknown words. Strings whose first
character is a digit are not covered. -/
theorem get_log_level_falls_back (s : String) (p : severity_level)
    (hn : s ∉ severity_names) (hd : isdigit (front s) = false) :
    _get_log_level s p = Except.ok p := by
  have hclean : reads_cleanly s := by
    intro h
    rw [hd] at h
    exact absurd h (by decide)
  rw [get_log_level_eq_token s p hclean, token_severity_eq_none s hn hd]
  rfl

theorem get_log_level_falls_back_witness :
    "verbose" ∉ severity_names ∧ isdigit (front "verbose") = false ∧
    _get_log_level "verbose" severity_level.info = Except.ok severity_level.info :=
  ⟨by decide, by decide,
   get_log_level_falls_back "verbose" severity_level.info (by decide) (by decide)⟩

/-- The design behind the failure of claim C5 on `"3abc"`: a string that
starts with a number from 0 to 5 yields the severity with that ordinal,
whatever follows the number. -/
theorem get_log_level_leading_number (s : String) (p : severity_level)
    (hd : isdigit (front s) = true) (h5 : leading_number s ≤ 5) :
    ∃ l : severity_level, l.ordinal = (leading_number s : Int) ∧
      _get_log_level s p = Except.ok l := by
  rw [get_log_level_eq_token s p (fun _ => h5)]
  simp only [token_severity, hd, if_true]
  generalize leading_number s = n at h5
  interval_cases n
  · exact ⟨severity_level.trace, rfl, rfl⟩
  · exact ⟨severity_level.debug, rfl, rfl⟩
  · exact ⟨severity_level.info, rfl, rfl⟩
  · exact ⟨severity_level.warning, rfl, rfl⟩
  · exact ⟨severity_level.error, rfl, rfl⟩
  · exact ⟨severity_level.fatal, rfl, rfl⟩

/-! ## Configuration resolution -/

theorem override_level_eq_token (token : Option String) (p : severity_level)
    (h : ∀ t ∈ token.toList, reads_cleanly t) :
    override_level token p = Except.ok ((token.bind token_severity).getD p) := by
  cases token with
  | none => rfl
  | some t =>
    have ht : reads_cleanly t := h t (by simp)
    simp only [override_level, Option.bind]
    exact get_log_level_eq_token t p ht

theorem resolve_global_level_eq (cfg : build_config) (getenv : environment)
    (h : config_reads_cleanly cfg getenv) :
    resolve_global_level cfg getenv = Except.ok (global_level_by_tokens cfg getenv) := by
  have h1 : ∀ t ∈ cfg.UHD_LOG_MIN_LEVEL.toList, reads_cleanly t :=
    fun t ht => h t (by simp only [level_tokens, List.mem_append]; tauto)
  have h2 : ∀ t ∈ (env_set_nonempty (getenv "UHD_LOG_LEVEL")).toList, reads_cleanly t :=
    fun t ht => h t (by simp only [level_tokens, List.mem_append]; tauto)
  simp only [resolve_global_level, override_level_eq_token _ _ h1,
    override_level_eq_token _ _ h2, global_level_by_tokens, bind, Except.bind, pure,
    Except.pure]
  cases (env_set_nonempty (getenv "UHD_LOG_LEVEL")).bind token_severity <;>
    cases cfg.UHD_LOG_MIN_LEVEL.bind token_severity <;> rfl

theorem setup_console_logging_eq {U : Type} (cfg : build_config) (getenv : environment)
    (h : config_reads_cleanly cfg getenv) :
    _setup_console_logging cfg getenv ([] : logger_map (sink U)) =
      Except.ok (loggers_after_console U cfg getenv) := by
  cases hd : cfg.UHD_LOG_CONSOLE_DISABLE with
  | true =>
    simp [_setup_console_logging, loggers_after_console, hd, pure, Except.pure]
  | false =>
    have h1 : ∀ t ∈ cfg.UHD_LOG_CONSOLE_LEVEL.toList, reads_cleanly t := by
      intro t ht
      apply h t
      simp only [level_tokens, hd, List.mem_append, Bool.false_eq_true, if_false]
      tauto
    have h2 : ∀ t ∈ (env_set_nonempty (getenv "UHD_LOG_CONSOLE_LEVEL")).toList,
        reads_cleanly t := by
      intro t ht
      apply h t
      simp only [level_tokens, hd, List.mem_append, Bool.false_eq_true, if_false]
      tauto
    simp only [_setup_console_logging, hd, override_level_eq_token _ _ h1,
      override_level_eq_token _ _ h2, bind, Except.bind, pure, Except.pure,
      loggers_after_console, Bool.false_eq_true, if_false]
    rfl

theorem loggers_after_console_ordered (U : Type) (cfg : build_config) (getenv : environment) :
    (loggers_after_console U cfg getenv).ordered := by
  cases hd : cfg.UHD_LOG_CONSOLE_DISABLE <;>
    simp [loggers_after_console, hd, logger_map.ordered, logger_map.keys]

theorem loggers_after_console_find_file (U : Type) (cfg : build_config)
    (getenv : environment) :
    (loggers_after_console U cfg getenv).find UHD_FILE_LOGGER_KEY = none := by
  cases hd : cfg.UHD_LOG_CONSOLE_DISABLE with
  | true => simp [loggers_after_console, hd, logger_map.find]
  | false =>
    simp only [loggers_after_console, hd, Bool.false_eq_true, if_false, logger_map.find]
    rfl

theorem setup_file_logging_eq {U : Type} (cfg : build_config) (getenv : environment)
    (open_succeeds : String → Bool) (h : config_reads_cleanly cfg getenv) :
    _setup_file_logging cfg getenv open_succeeds (loggers_after_console U cfg getenv) =
      Except.ok (loggers_after_setup U cfg getenv open_succeeds) := by
  have h1 : ∀ t ∈ cfg.UHD_LOG_FILE_LEVEL.toList, reads_cleanly t := by
    intro t ht
    apply h t
    simp only [level_tokens, List.mem_append]
    tauto
  have h2 : ∀ t ∈ (env_set_nonempty (getenv "UHD_LOG_FILE_LEVEL")).toList, reads_cleanly t := by
    intro t ht
    apply h t
    simp only [level_tokens, List.mem_append]
    tauto
  simp only [_setup_file_logging, override_level_eq_token _ _ h1,
    override_level_eq_token _ _ h2, bind, Except.bind, pure, Except.pure,
    loggers_after_setup]
  by_cases ht : resolve_log_file_target cfg getenv = ""
  · simp [ht]
  · simp only [ne_eq, ht, not_false_eq_true, if_true]
    rfl

theorem log_resource_ctor_eq (U : Type) (cfg : build_config) (getenv : environment)
    (open_succeeds : String → Bool) (sys_info : String) (now tid : Nat)
    (h : config_reads_cleanly cfg getenv) :
    log_resource.ctor U cfg getenv open_succeeds sys_info now tid =
      Except.ok { global_level := global_level_by_tokens cfg getenv, _exit := false,
                  _loggers := loggers_after_setup U cfg getenv open_succeeds,
                  _log_queue :=
                    [{ logging_info.mk6 now severity_level.info "log.cpp" 211 "UHD" tid with
                       message := sys_info }],
                  _fastpath_queue := [] } := by
  simp only [log_resource.ctor, resolve_global_level_eq cfg getenv h,
    setup_console_logging_eq cfg getenv h, setup_file_logging_eq cfg getenv open_succeeds h,
    bind, Except.bind, pure, Except.pure]
  rfl

theorem loggers_after_setup_find_file (U : Type) (cfg : build_config) (getenv : environment)
    (open_succeeds : String → Bool) :
    (loggers_after_setup U cfg getenv open_succeeds).find UHD_FILE_LOGGER_KEY =
      if resolve_log_file_target cfg getenv ≠ "" then
        some (sink_level_by_tokens cfg.UHD_LOG_FILE_LEVEL
            (env_set_nonempty (getenv "UHD_LOG_FILE_LEVEL")),
          some (sink.file_log
            (file_logger_backend.ctor open_succeeds (resolve_log_file_target cfg getenv))))
      else none := by
  by_cases ht : resolve_log_file_target cfg getenv = ""
  · simp only [loggers_after_setup, ht, ne_eq, not_true_eq_false, if_false]
    exact loggers_after_console_find_file U cfg getenv
  · simp only [loggers_after_setup, ne_eq, ht, not_false_eq_true, if_true]
    rw [logger_map.find_subscript_update _ (loggers_after_console_ordered U cfg getenv)]
    simp

/-- Claim C6 as stated fails when the environment gives a token that is not
recognised but starts with a digit: in a build with `UHD_LOG_MIN_LEVEL=info`
and with `UHD_LOG_LEVEL=3abc`, the token "3abc" names no severity, so the
claimed global level is the `info` of the macro, but the constructor sets the
global level to `warning`. -/
theorem ctor_global_level_env_3abc_overrides_macro :
    named_severity "3abc" = none ∧
    claimed_global_level build_min_info env_level_3abc = severity_level.info ∧
    (log_resource.ctor Nat build_min_info env_level_3abc nothing_opens "boot" 0 0).map
      (fun r => r.global_level) = Except.ok severity_level.warning := by
  refine ⟨rfl, rfl, rfl⟩

/-- Claim C6, amended. Provided no severity token of the configuration starts
with a number above 5, the global level after construction is resolved
lowest-to-highest priority as compiled-in default `off`, then
`UHD_LOG_MIN_LEVEL`, then `UHD_LOG_LEVEL`, where a token is recognised when it
is one of the seven names or starts with a number from 0 to 5 (and then
stands for the severity with that ordinal): the level is the one of
`UHD_LOG_LEVEL` when that variable is set, not empty and recognised;
otherwise the one of `UHD_LOG_MIN_LEVEL` when that is defined and recognised;
otherwise `off`. -/
theorem ctor_global_level_priority (U : Type) (cfg : build_config) (getenv : environment)
    (open_succeeds : String → Bool) (sys_info : String) (now tid : Nat)
    (h : config_reads_cleanly cfg getenv) :
    ∃ r : log_resource U,
      log_resource.ctor U cfg getenv open_succeeds sys_info now tid = Except.ok r ∧
      r.global_level =
        match (env_set_nonempty (getenv "UHD_LOG_LEVEL")).bind token_severity with
        | some l => l
        | none =>
          match cfg.UHD_LOG_MIN_LEVEL.bind token_severity with
          | some l => l
          | none => severity_level.off :=
  ⟨_, log_resource_ctor_eq U cfg getenv open_succeeds sys_info now tid h, rfl⟩

theorem ctor_global_level_priority_witness :
    config_reads_cleanly build_min_info env_level_debug ∧
    ∃ r : log_resource Nat,
      log_resource.ctor Nat build_min_info env_level_debug nothing_opens "boot" 0 0 =
        Except.ok r ∧
      r.global_level =
        match (env_set_nonempty (env_level_debug "UHD_LOG_LEVEL")).bind token_severity with
        | some l => l
        | none =>
          match build_min_info.UHD_LOG_MIN_LEVEL.bind token_severity with
          | some l => l
          | none => severity_level.off :=
  ⟨by decide,
   ctor_global_level_priority Nat build_min_info env_level_debug nothing_opens "boot" 0 0
     (by decide)⟩

/-- Claim C7 as stated fails when the file cannot be opened: with
`UHD_LOG_FILE=/nonexistent/uhd.log` in the environment and a file system in
which no file can be opened, the registry after construction holds an entry
under `file`, whose sink is the closure over a backend with a closed
stream. -/
theorem file_sink_registered_when_open_fails :
    resolve_log_file_target default_build env_log_file = "/nonexistent/uhd.log" ∧
    nothing_opens "/nonexistent/uhd.log" = false ∧
    (log_resource.ctor Nat default_build env_log_file nothing_opens "boot" 0 0).map
      (fun r => r._loggers.find UHD_FILE_LOGGER_KEY) =
      Except.ok (some (severity_level.trace,
        some (sink.file_log { file_path := "/nonexistent/uhd.log", is_open := false }))) := by
  refine ⟨rfl, rfl, rfl⟩

/-- Claim C7, amended. Provided no severity token of the configuration starts
with a number above 5, the registry after construction holds an entry under
`file` if and only if a non-empty target path was resolved (the macro
`UHD_LOG_FILE`, overridden by a non-empty environment variable
`UHD_LOG_FILE`). When no path is resolved no file sink is registered. When a
path is resolved the entry holds the closure over the file backend built for
that path, whether or not opening succeeded; a backend whose file could not
be opened writes nothing. -/
theorem file_sink_registered_iff_target (U : Type) (cfg : build_config)
    (getenv : environment) (open_succeeds : String → Bool) (sys_info : String)
    (now tid : Nat) (h : config_reads_cleanly cfg getenv) :
    ∃ r : log_resource U,
      log_resource.ctor U cfg getenv open_succeeds sys_info now tid = Except.ok r ∧
      ((r._loggers.find UHD_FILE_LOGGER_KEY).isSome = true ↔
        resolve_log_file_target cfg getenv ≠ "") ∧
      (∀ lvl fn, r._loggers.find UHD_FILE_LOGGER_KEY = some (lvl, fn) →
        fn = some (sink.file_log
          (file_logger_backend.ctor open_succeeds (resolve_log_file_target cfg getenv)))) ∧
      (open_succeeds (resolve_log_file_target cfg getenv) = false →
        ∀ write_succeeds log_info, (file_logger_backend.ctor open_succeeds
          (resolve_log_file_target cfg getenv)).log write_succeeds log_info =
            Except.ok []) := by
  refine ⟨_, log_resource_ctor_eq U cfg getenv open_succeeds sys_info now tid h, ?_, ?_, ?_⟩
  · show ((loggers_after_setup U cfg getenv open_succeeds).find UHD_FILE_LOGGER_KEY).isSome
      = true ↔ _
    rw [loggers_after_setup_find_file]
    by_cases ht : resolve_log_file_target cfg getenv = "" <;> simp [ht]
  · intro lvl fn hfind
    have hfind2 : (loggers_after_setup U cfg getenv open_succeeds).find UHD_FILE_LOGGER_KEY
        = some (lvl, fn) := hfind
    rw [loggers_after_setup_find_file] at hfind2
    by_cases ht : resolve_log_file_target cfg getenv = ""
    · simp [ht] at hfind2
    · simp only [ne_eq, ht, not_false_eq_true, if_true, Option.some.injEq,
        Prod.mk.injEq] at hfind2
      exact hfind2.2.symm
  · intro hopen write_succeeds log_info
    simp [file_logger_backend.ctor, file_logger_backend.log, hopen]

theorem file_sink_registered_iff_target_witness :
    config_reads_cleanly default_build env_log_file ∧
    ∃ r : log_resource Nat,
      log_resource.ctor Nat default_build env_log_file nothing_opens "boot" 0 0 =
        Except.ok r ∧
      ((r._loggers.find UHD_FILE_LOGGER_KEY).isSome = true ↔
        resolve_log_file_target default_build env_log_file ≠ "") ∧
      (∀ lvl fn, r._loggers.find UHD_FILE_LOGGER_KEY = some (lvl, fn) →
        fn = some (sink.file_log (file_logger_backend.ctor nothing_opens
          (resolve_log_file_target default_build env_log_file)))) ∧
      (nothing_opens (resolve_log_file_target default_build env_log_file) = false →
        ∀ write_succeeds log_info, (file_logger_backend.ctor nothing_opens
          (resolve_log_file_target default_build env_log_file)).log write_succeeds
            log_info = Except.ok []) :=
  ⟨by decide,
   file_sink_registered_iff_target Nat default_build env_log_file nothing_opens "boot" 0 0
     (by decide)⟩

/-- A token that is a rejected number stops the construction: with
`UHD_LOG_LEVEL=6` the constructor does not complete, whatever else is
configured in a default build. -/
theorem ctor_stops_on_rejected_number :
    (log_resource.ctor Nat build_min_info env_level_six nothing_opens "boot" 0 0).map
      (fun r => r.global_level) = Except.error init_failure.log_rs_reentered := by
  rfl

/-! ## Registries reachable through the public API -/

theorem logger_map.subscript_update_all_callable {F : Type} (m : logger_map F)
    (hm : m.ordered) (hc : all_callable m) (key : String)
    (g : level_logfn_pair F → level_logfn_pair F)
    (hg : ∀ v, v.2 ≠ none → (g v).2 ≠ none)
    (h0 : key ∈ m.keys ∨ (g (level_logfn_pair.value_init F)).2 ≠ none) :
    all_callable (m.subscript_update key g) := by
  induction m with
  | nil =>
    rcases h0 with h0 | h0
    · simp [logger_map.keys] at h0
    · intro e he
      simp only [logger_map.subscript_update, List.mem_singleton] at he
      rw [he]
      exact h0
  | cons e rest ih =>
    obtain ⟨k0, v0⟩ := e
    have hm2 := (logger_map.ordered_cons k0 v0 rest).mp hm
    have hrest : all_callable rest := fun x hx => hc x (List.mem_cons_of_mem _ hx)
    have hv0 : v0.2 ≠ none := hc (k0, v0) (List.mem_cons_self _ _)
    by_cases h1 : key = k0
    · subst h1
      rw [logger_map.subscript_update_cons_eq]
      intro x hx
      rcases List.mem_cons.mp hx with hx | hx
      · rw [hx]
        exact hg v0 hv0
      · exact hrest x hx
    · by_cases h2 : key_less key k0 = true
      · rw [logger_map.subscript_update_cons_lt _ _ _ _ _ h1 h2]
        have hdflt : (g (level_logfn_pair.value_init F)).2 ≠ none := by
          rcases h0 with h0 | h0
          · rw [logger_map.keys_cons] at h0
            rcases List.mem_cons.mp h0 with h0 | h0
            · exact absurd h0 h1
            · exact absurd h2 (key_less_asymm (hm2.1 key h0))
          · exact h0
        intro x hx
        rcases List.mem_cons.mp hx with hx | hx
        · rw [hx]
          exact hdflt
        · exact hc x hx
      · rw [logger_map.subscript_update_cons_gt _ _ _ _ _ h1 h2]
        have h0r : key ∈ logger_map.keys rest ∨
            (g (level_logfn_pair.value_init F)).2 ≠ none := by
          rcases h0 with h0 | h0
          · rw [logger_map.keys_cons] at h0
            rcases List.mem_cons.mp h0 with h0 | h0
            · exact absurd h0 h1
            · exact Or.inl h0
          · exact Or.inr h0
        intro x hx
        rcases List.mem_cons.mp hx with hx | hx
        · rw [hx]
          exact hv0
        · exact ih hm2.2 hrest h0r x hx

/-- Registering a callable sink keeps the registry a map of callable
sinks. -/
theorem add_logger_keeps_registry_callable {F : Type} (m : logger_map F) (hm : m.ordered)
    (hc : all_callable m) (global_level : severity_level) (key : String) (f : F) :
    (add_logger m global_level key (some f)).ordered ∧
    all_callable (add_logger m global_level key (some f)) :=
  ⟨logger_map.ordered_subscript_update m hm key _,
   logger_map.subscript_update_all_callable m hm hc key _ (fun _ _ => by simp)
     (Or.inr (by simp))⟩

/-- Setting the level of a registered key keeps the registry a map of
callable sinks. -/
theorem set_log_level_present_keeps_registry_callable {F : Type} (m : logger_map F)
    (hm : m.ordered) (hc : all_callable m) (key : String) (level : severity_level)
    (hkey : key ∈ m.keys) :
    (set_log_level m key level).ordered ∧ all_callable (set_log_level m key level) :=
  ⟨logger_map.ordered_subscript_update m hm key _,
   logger_map.subscript_update_all_callable m hm hc key _ (fun _ hv => hv) (Or.inl hkey)⟩

/-- The registry left by the constructor is a map of callable sinks. -/
theorem loggers_after_setup_callable (U : Type) (cfg : build_config) (getenv : environment)
    (open_succeeds : String → Bool) :
    (loggers_after_setup U cfg getenv open_succeeds).ordered ∧
    all_callable (loggers_after_setup U cfg getenv open_succeeds) := by
  have hord := loggers_after_console_ordered U cfg getenv
  have hcall : all_callable (loggers_after_console U cfg getenv) := by
    cases hd : cfg.UHD_LOG_CONSOLE_DISABLE <;>
      simp [loggers_after_console, hd, all_callable]
  by_cases ht : resolve_log_file_target cfg getenv = ""
  · simp only [loggers_after_setup, ht, ne_eq, not_true_eq_false, if_false]
    exact ⟨hord, hcall⟩
  · simp only [loggers_after_setup, ne_eq, ht, not_false_eq_true, if_true]
    exact ⟨logger_map.ordered_subscript_update _ hord _ _,
      logger_map.subscript_update_all_callable _ hord hcall _ _ (fun _ _ => by simp)
        (Or.inr (by simp))⟩

/-! ## The consumer task -/

theorem handle_log_info_returns {F : Type} (L : logger_map F) (hL : all_callable L)
    (log_info : logging_info) : (_handle_log_info L log_info).threw = false := by
  by_cases hmsg : log_info.message = ""
  · simp [_handle_log_info, hmsg]
  · simp [_handle_log_info, hmsg, dispatch_loop_threw L log_info hL]

theorem engine.handle_eq {F : Type} (L : logger_map F) (hL : all_callable L) (s : engine F)
    (hs : s._loggers = L) (e : logging_info) (rest : List logging_info) (next : pop_task_pc) :
    (s.handle e rest next).pc = next ∧
    (s.handle e rest next).handled = s.handled ++ [e] ∧
    (s.handle e rest next)._log_queue = rest ∧
    (s.handle e rest next)._exit = s._exit ∧
    (s.handle e rest next)._loggers = s._loggers ∧
    (s.handle e rest next).accepted = s.accepted ∧
    (s.handle e rest next).steps = s.steps ++ (_handle_log_info L e).steps := by
  have ht : (_handle_log_info L e).threw = false := handle_log_info_returns L hL e
  subst hs
  simp [engine.handle, ht]

theorem dispatch_steps_of_append {F : Type} (L : logger_map F) (xs : List logging_info)
    (e : logging_info) :
    dispatch_steps_of L (xs ++ [e]) = dispatch_steps_of L xs ++ (_handle_log_info L e).steps := by
  induction xs with
  | nil => simp [dispatch_steps_of]
  | cons x rest ih => simp [dispatch_steps_of, ih]

theorem engine.push_consistent {F : Type} (L : logger_map F) (s : engine F)
    (e : logging_info) (h : s.consistent L) : (s.push e).consistent L := by
  obtain ⟨h1, h2, h3, h4⟩ := h
  by_cases hroom : s._log_queue.length < LOG_QUEUE_CAPACITY
  · simp only [engine.push, hroom, if_true, engine.consistent]
    refine ⟨h1, ?_, h3, h4⟩
    rw [← List.append_assoc, h2]
  · simp only [engine.push, hroom, if_false]
    exact ⟨h1, h2, h3, h4⟩

theorem engine.push_fields {F : Type} (s : engine F) (e : logging_info) :
    (s.push e).pc = s.pc ∧ (s.push e)._exit = s._exit ∧ (s.push e).handled = s.handled ∧
    (∃ t, (s.push e).accepted = s.accepted ++ t) ∧
    (s._log_queue ≠ [] → (s.push e)._log_queue ≠ []) := by
  by_cases hroom : s._log_queue.length < LOG_QUEUE_CAPACITY
  · have hp : s.push e = engine.mk s._exit s._loggers (s._log_queue ++ [e]) s.pc s.handled
        s.steps (s.accepted ++ [e]) := by
      simp [engine.push, hroom]
    rw [hp]
    exact ⟨rfl, rfl, rfl, ⟨[e], rfl⟩, fun _ => by simp⟩
  · have hp : s.push e = s := by simp [engine.push, hroom]
    rw [hp]
    exact ⟨rfl, rfl, rfl, ⟨[], by simp⟩, fun h => h⟩

theorem engine.push_final_nonempty {F : Type} (s : engine F) (e : logging_info) :
    (s.push e)._log_queue ≠ [] := by
  by_cases hroom : s._log_queue.length < LOG_QUEUE_CAPACITY
  · simp [engine.push, hroom]
  · simp only [engine.push, hroom, if_false]
    intro h
    apply hroom
    rw [h]
    decide

theorem engine.pop_task_step_loop_test {F : Type} (s : engine F)
    (hpc : s.pc = pop_task_pc.loop_test) :
    s.pop_task_step =
      { s with pc := if s._exit then pop_task_pc.drain else pop_task_pc.pop_wait } := by
  unfold engine.pop_task_step
  rw [hpc]
  by_cases he : s._exit = true <;> simp [he]

theorem engine.pop_task_step_wait_nil {F : Type} (s : engine F)
    (hpc : s.pc = pop_task_pc.pop_wait) (hq : s._log_queue = []) : s.pop_task_step = s := by
  unfold engine.pop_task_step
  rw [hpc]
  simp [hq]

theorem engine.pop_task_step_wait_cons {F : Type} (s : engine F) (e : logging_info)
    (rest : List logging_info) (hpc : s.pc = pop_task_pc.pop_wait)
    (hq : s._log_queue = e :: rest) :
    s.pop_task_step = s.handle e rest pop_task_pc.loop_test := by
  unfold engine.pop_task_step
  rw [hpc]
  simp [hq]

theorem engine.pop_task_step_drain_nil {F : Type} (s : engine F)
    (hpc : s.pc = pop_task_pc.drain) (hq : s._log_queue = []) :
    s.pop_task_step = { s with pc := pop_task_pc.finished } := by
  unfold engine.pop_task_step
  rw [hpc]
  simp [hq]

theorem engine.pop_task_step_drain_cons {F : Type} (s : engine F) (e : logging_info)
    (rest : List logging_info) (hpc : s.pc = pop_task_pc.drain)
    (hq : s._log_queue = e :: rest) :
    s.pop_task_step = s.handle e rest pop_task_pc.drain := by
  unfold engine.pop_task_step
  rw [hpc]
  simp [hq]

theorem engine.pop_task_step_finished {F : Type} (s : engine F)
    (hpc : s.pc = pop_task_pc.finished) : s.pop_task_step = s := by
  unfold engine.pop_task_step
  rw [hpc]

theorem engine.handle_consistent {F : Type} (L : logger_map F) (hL : all_callable L)
    (s : engine F) (e : logging_info) (rest : List logging_info) (next : pop_task_pc)
    (h : s.consistent L) (hq : s._log_queue = e :: rest)
    (hnext : next ≠ pop_task_pc.aborted) : (s.handle e rest next).consistent L := by
  obtain ⟨h1, h2, _, h4⟩ := h
  obtain ⟨e1, e2, e3, _, e5, e6, e7⟩ := engine.handle_eq L hL s h1 e rest next
  refine ⟨e5.trans h1, ?_, by rw [e1]; exact hnext, ?_⟩
  · rw [e2, e3, e6, ← h2, hq]
    simp
  · rw [e7, e2, dispatch_steps_of_append, h4]

theorem engine.step_running {F : Type} (L : logger_map F) (hL : all_callable L)
    (s : engine F) (a : action) (h : s.running L) : (s.step a).running L := by
  obtain ⟨hc, hexit, hpc⟩ := h
  cases a with
  | producer_push e =>
    obtain ⟨p1, p2, _⟩ := engine.push_fields s e
    refine ⟨engine.push_consistent L s e hc, ?_, ?_⟩
    · show (s.push e)._exit = false
      rw [p2]; exact hexit
    · show (s.push e).pc = _ ∨ (s.push e).pc = _
      rw [p1]; exact hpc
  | consumer =>
    show (s.pop_task_step).running L
    rcases hpc with hpc | hpc
    · rw [engine.pop_task_step_loop_test s hpc]
      refine ⟨⟨hc.1, hc.2.1, ?_, hc.2.2.2⟩, hexit, Or.inr ?_⟩
      · simp [hexit]
      · simp [hexit]
    · cases hq : s._log_queue with
      | nil =>
        rw [engine.pop_task_step_wait_nil s hpc hq]
        exact ⟨hc, hexit, Or.inr hpc⟩
      | cons e rest =>
        rw [engine.pop_task_step_wait_cons s e rest hpc hq]
        obtain ⟨e1, _, _, e4, _, _⟩ :=
          engine.handle_eq L hL s hc.1 e rest pop_task_pc.loop_test
        exact ⟨engine.handle_consistent L hL s e rest _ hc hq (by decide),
          e4.trans hexit, Or.inl e1⟩

theorem engine.run_running {F : Type} (L : logger_map F) (hL : all_callable L)
    (schedule : List action) (s : engine F) (h : s.running L) :
    (s.run schedule).running L := by
  induction schedule generalizing s with
  | nil => exact h
  | cons a rest ih => exact ih (s.step a) (engine.step_running L hL s a h)

theorem engine.init_running {F : Type} (L : logger_map F) (queue : List logging_info) :
    (engine.init L queue).running L := by
  refine ⟨⟨rfl, ?_, ?_, rfl⟩, rfl, Or.inl rfl⟩
  · simp [engine.init]
  · simp [engine.init]

theorem engine.set_exit_draining {F : Type} (L : logger_map F) (s : engine F)
    (h : s.running L) : (s.set_exit).draining L s.accepted := by
  obtain ⟨hc, _, hpc⟩ := h
  refine ⟨hc, rfl, List.prefix_refl _, ?_⟩
  intro hf
  have hf2 : s.pc = pop_task_pc.finished := hf
  rcases hpc with hpc | hpc <;> rw [hpc] at hf2 <;> exact absurd hf2 (by decide)

theorem engine.step_draining {F : Type} (L : logger_map F) (hL : all_callable L)
    (A : List logging_info) (s : engine F) (a : action) (h : s.draining L A) :
    (s.step a).draining L A := by
  obtain ⟨hc, hexit, hacc, hfin⟩ := h
  cases a with
  | producer_push e =>
    obtain ⟨p1, p2, p3, ⟨t, p4⟩, _⟩ := engine.push_fields s e
    refine ⟨engine.push_consistent L s e hc, ?_, ?_, ?_⟩
    · show (s.push e)._exit = true
      rw [p2]; exact hexit
    · show A <+: (s.push e).accepted
      rw [p4]
      exact hacc.trans (List.prefix_append _ _)
    · show (s.push e).pc = _ → A <+: (s.push e).handled
      rw [p1, p3]; exact hfin
  | consumer =>
    show (s.pop_task_step).draining L A
    cases hpc : s.pc with
    | loop_test =>
      rw [engine.pop_task_step_loop_test s hpc]
      refine ⟨⟨hc.1, hc.2.1, ?_, hc.2.2.2⟩, hexit, hacc, ?_⟩
      · simp [hexit]
      · simp [hexit]
    | pop_wait =>
      cases hq : s._log_queue with
      | nil =>
        rw [engine.pop_task_step_wait_nil s hpc hq]
        exact ⟨hc, hexit, hacc, hfin⟩
      | cons e rest =>
        rw [engine.pop_task_step_wait_cons s e rest hpc hq]
        obtain ⟨e1, _, _, e4, _, e6, _⟩ :=
          engine.handle_eq L hL s hc.1 e rest pop_task_pc.loop_test
        refine ⟨engine.handle_consistent L hL s e rest _ hc hq (by decide),
          e4.trans hexit, by rw [e6]; exact hacc, ?_⟩
        intro hf
        rw [e1] at hf
        exact absurd hf (by decide)
    | drain =>
      cases hq : s._log_queue with
      | nil =>
        rw [engine.pop_task_step_drain_nil s hpc hq]
        refine ⟨⟨hc.1, hc.2.1, by simp, hc.2.2.2⟩, hexit, hacc, ?_⟩
        intro _
        have h2 : s.handled ++ s._log_queue = s.accepted := hc.2.1
        rw [hq, List.append_nil] at h2
        show A <+: s.handled
        rw [h2]
        exact hacc
      | cons e rest =>
        rw [engine.pop_task_step_drain_cons s e rest hpc hq]
        obtain ⟨e1, _, _, e4, _, e6, _⟩ :=
          engine.handle_eq L hL s hc.1 e rest pop_task_pc.drain
        refine ⟨engine.handle_consistent L hL s e rest _ hc hq (by decide),
          e4.trans hexit, by rw [e6]; exact hacc, ?_⟩
        intro hf
        rw [e1] at hf
        exact absurd hf (by decide)
    | finished =>
      rw [engine.pop_task_step_finished s hpc]
      exact ⟨hc, hexit, hacc, hfin⟩
    | aborted => exact absurd hpc hc.2.2.1

theorem engine.run_draining {F : Type} (L : logger_map F) (hL : all_callable L)
    (A : List logging_info) (schedule : List action) (s : engine F) (h : s.draining L A) :
    (s.run schedule).draining L A := by
  induction schedule generalizing s with
  | nil => exact h
  | cons a rest ih => exact ih (s.step a) (engine.step_draining L hL A s a h)

theorem engine.step_unblocked {F : Type} (L : logger_map F) (hL : all_callable L)
    (A : List logging_info) (s : engine F) (a : action) (h : s.draining L A)
    (hu : s.unblocked) : (s.step a).unblocked := by
  obtain ⟨hc, hexit, _, _⟩ := h
  cases a with
  | producer_push e =>
    obtain ⟨p1, _, _, _, p5⟩ := engine.push_fields s e
    intro hw
    have hw2 : (s.push e).pc = pop_task_pc.pop_wait := hw
    rw [p1] at hw2
    exact p5 (hu hw2)
  | consumer =>
    show (s.pop_task_step).unblocked
    cases hpc : s.pc with
    | loop_test =>
      rw [engine.pop_task_step_loop_test s hpc]
      intro hw
      simp [hexit] at hw
    | pop_wait =>
      cases hq : s._log_queue with
      | nil => exact absurd hq (hu hpc)
      | cons e rest =>
        rw [engine.pop_task_step_wait_cons s e rest hpc hq]
        obtain ⟨e1, _⟩ := engine.handle_eq L hL s hc.1 e rest pop_task_pc.loop_test
        intro hw
        rw [e1] at hw
        exact absurd hw (by decide)
    | drain =>
      cases hq : s._log_queue with
      | nil =>
        rw [engine.pop_task_step_drain_nil s hpc hq]
        intro hw
        simp at hw
      | cons e rest =>
        rw [engine.pop_task_step_drain_cons s e rest hpc hq]
        obtain ⟨e1, _⟩ := engine.handle_eq L hL s hc.1 e rest pop_task_pc.drain
        intro hw
        rw [e1] at hw
        exact absurd hw (by decide)
    | finished =>
      rw [engine.pop_task_step_finished s hpc]
      intro hw
      rw [hpc] at hw
      exact absurd hw (by decide)
    | aborted => exact absurd hpc hc.2.2.1

theorem engine.run_unblocked {F : Type} (L : logger_map F) (hL : all_callable L)
    (A : List logging_info) (schedule : List action) (s : engine F) (h : s.draining L A)
    (hu : s.unblocked) : (s.run schedule).unblocked := by
  induction schedule generalizing s with
  | nil => exact hu
  | cons a rest ih =>
    exact ih (s.step a) (engine.step_draining L hL A s a h)
      (engine.step_unblocked L hL A s a h hu)

theorem engine.run_append {F : Type} (s : engine F) (xs ys : List action) :
    s.run (xs ++ ys) = (s.run xs).run ys := by
  simp [engine.run, List.foldl_append]

theorem engine.run_cons {F : Type} (s : engine F) (a : action) (xs : List action) :
    s.run (a :: xs) = (s.step a).run xs := rfl

theorem engine.drain_finishes {F : Type} (L : logger_map F) (hL : all_callable L)
    (q : List logging_info) :
    ∀ s : engine F, s._loggers = L → s.pc = pop_task_pc.drain → s._log_queue = q →
      (s.run (List.replicate (q.length + 1) action.consumer)).pc = pop_task_pc.finished := by
  induction q with
  | nil =>
    intro s _ hpc hq
    show (s.pop_task_step).pc = _
    rw [engine.pop_task_step_drain_nil s hpc hq]
  | cons e rest ih =>
    intro s hs hpc hq
    rw [List.length_cons, List.replicate_succ, engine.run_cons]
    show ((s.pop_task_step).run _).pc = _
    rw [engine.pop_task_step_drain_cons s e rest hpc hq]
    obtain ⟨e1, _, e3, _, e5, _⟩ := engine.handle_eq L hL s hs e rest pop_task_pc.drain
    exact ih _ (e5.trans hs) e1 e3

theorem engine.pop_task_finishes {F : Type} (L : logger_map F) (hL : all_callable L)
    (A : List logging_info) (s : engine F) (h : s.draining L A) (hu : s.unblocked) :
    ∃ n, n ≤ s._log_queue.length + 2 ∧
      (s.run (List.replicate n action.consumer)).pc = pop_task_pc.finished := by
  obtain ⟨hc, hexit, _, _⟩ := h
  cases hpc : s.pc with
  | loop_test =>
    refine ⟨s._log_queue.length + 2, le_refl _, ?_⟩
    rw [List.replicate_succ, engine.run_cons]
    show ((s.pop_task_step).run _).pc = _
    rw [engine.pop_task_step_loop_test s hpc]
    apply engine.drain_finishes L hL s._log_queue
    · exact hc.1
    · simp [hexit]
    · rfl
  | pop_wait =>
    cases hq : s._log_queue with
    | nil => exact absurd hq (hu hpc)
    | cons e rest =>
      refine ⟨rest.length + 3, by simp, ?_⟩
      rw [List.replicate_succ, engine.run_cons]
      show ((s.pop_task_step).run _).pc = _
      rw [engine.pop_task_step_wait_cons s e rest hpc hq]
      obtain ⟨e1, _, e3, e4, e5, _⟩ :=
        engine.handle_eq L hL s hc.1 e rest pop_task_pc.loop_test
      rw [List.replicate_succ, engine.run_cons]
      show (((s.handle e rest pop_task_pc.loop_test).pop_task_step).run _).pc = _
      rw [engine.pop_task_step_loop_test _ e1]
      apply engine.drain_finishes L hL rest
      · exact e5.trans hc.1
      · simp [e4, hexit]
      · exact e3
  | drain =>
    refine ⟨s._log_queue.length + 1, by omega, ?_⟩
    exact engine.drain_finishes L hL s._log_queue s hc.1 hpc rfl
  | finished =>
    exact ⟨0, by omega, hpc⟩
  | aborted => exact absurd hpc hc.2.2.1

theorem engine.after_teardown_invariants {F : Type} (L : logger_map F)
    (hL : all_callable L) (queue : List logging_info) (pre mid post : List action)
    (now tid : Nat) :
    (engine.after_teardown L queue pre mid post now tid).draining L
      (engine.before_teardown L queue pre).accepted ∧
    (engine.after_teardown L queue pre mid post now tid).unblocked := by
  have h0 : (engine.before_teardown L queue pre).running L :=
    engine.run_running L hL pre _ (engine.init_running L queue)
  have h1 := engine.run_draining L hL _ mid _ (engine.set_exit_draining L _ h0)
  have h2 : ((((engine.before_teardown L queue pre).set_exit).run mid).push_final_message
      now tid).draining L (engine.before_teardown L queue pre).accepted :=
    engine.step_draining L hL _ _ (action.producer_push (final_message now tid)) h1
  have hu : ((((engine.before_teardown L queue pre).set_exit).run mid).push_final_message
      now tid).unblocked := fun _ => engine.push_final_nonempty _ _
  exact ⟨engine.run_draining L hL _ post _ h2, engine.run_unblocked L hL _ post _ h2 hu⟩

/-- Claim C8 as stated fails when the registry holds an empty function
object. The queue holds two accepted events when teardown begins; `pop_task`
pops the first, `_handle_log_info` calls the empty function object and
throws, and `pop_task` is left by the exception: the second accepted event is
never handed to `_handle_log_info`. -/
theorem pop_task_aborts_on_empty_function :
    (engine.before_teardown registry_with_empty_entry [sample_event, second_event]
      []).accepted = [sample_event, second_event] ∧
    (engine.after_teardown registry_with_empty_entry [sample_event, second_event] [] []
      [action.consumer, action.consumer, action.consumer, action.consumer] 3 1).pc =
        pop_task_pc.aborted ∧
    (engine.after_teardown registry_with_empty_entry [sample_event, second_event] [] []
      [action.consumer, action.consumer, action.consumer, action.consumer] 3 1).handled =
        [sample_event] ∧
    (engine.after_teardown registry_with_empty_entry [sample_event, second_event] [] []
      [action.consumer, action.consumer, action.consumer, action.consumer]
      3 1)._log_queue = [second_event, final_message 3 1] := by
  refine ⟨rfl, rfl, rfl, rfl⟩

/-- Claim C8, amended. The event queue is a FIFO list and every entry of the
registry holds a callable sink. Let producers and `pop_task` interleave in any
way (`pre`), let `~log_resource` set the exit flag at that moment, let them
interleave further (`mid`), let `~log_resource` push its final message, and
let them interleave again (`post`). Then what `pop_task` has handed to
`_handle_log_info`, followed by what is still queued, is exactly what the
queue accepted, in order, and the dispatch steps performed are those of
`_handle_log_info` on each handed-over event, in that order; whenever
`pop_task` has terminated, the events accepted before the flag was set are a
leading part of what it handed over; and `pop_task` does terminate: given at
most queue length plus two further steps of its own it reaches its end, with
every event accepted before the flag was set handed to `_handle_log_info`
exactly once and in order. -/
theorem pop_task_hands_over_accepted_events {F : Type} (L : logger_map F)
    (hL : all_callable L) (queue : List logging_info) (pre mid post : List action)
    (now tid : Nat) :
    (engine.after_teardown L queue pre mid post now tid).handled ++
        (engine.after_teardown L queue pre mid post now tid)._log_queue =
      (engine.after_teardown L queue pre mid post now tid).accepted ∧
    (engine.after_teardown L queue pre mid post now tid).steps =
      dispatch_steps_of L (engine.after_teardown L queue pre mid post now tid).handled ∧
    ((engine.after_teardown L queue pre mid post now tid).pc = pop_task_pc.finished →
      (engine.before_teardown L queue pre).accepted <+:
        (engine.after_teardown L queue pre mid post now tid).handled) ∧
    ∃ n, n ≤ (engine.after_teardown L queue pre mid post now tid)._log_queue.length + 2 ∧
      ((engine.after_teardown L queue pre mid post now tid).run
        (List.replicate n action.consumer)).pc = pop_task_pc.finished ∧
      (engine.before_teardown L queue pre).accepted <+:
        ((engine.after_teardown L queue pre mid post now tid).run
          (List.replicate n action.consumer)).handled ∧
      ((engine.after_teardown L queue pre mid post now tid).run
          (List.replicate n action.consumer)).handled ++
        ((engine.after_teardown L queue pre mid post now tid).run
          (List.replicate n action.consumer))._log_queue =
        ((engine.after_teardown L queue pre mid post now tid).run
          (List.replicate n action.consumer)).accepted ∧
      ((engine.after_teardown L queue pre mid post now tid).run
          (List.replicate n action.consumer)).steps =
        dispatch_steps_of L ((engine.after_teardown L queue pre mid post now tid).run
          (List.replicate n action.consumer)).handled := by
  obtain ⟨hd, hu⟩ := engine.after_teardown_invariants L hL queue pre mid post now tid
  refine ⟨hd.1.2.1, hd.1.2.2.2, hd.2.2.2, ?_⟩
  obtain ⟨n, hn, hfin⟩ := engine.pop_task_finishes L hL _ _ hd hu
  have hd2 := engine.run_draining L hL _ (List.replicate n action.consumer) _ hd
  exact ⟨n, hn, hfin, hd2.2.2.2 hfin, hd2.1.2.1, hd2.1.2.2.2⟩

theorem pop_task_hands_over_accepted_events_witness :
    all_callable sample_registry ∧
    (engine.after_teardown sample_registry [sample_event]
        [action.consumer, action.producer_push second_event] [action.consumer] []
        3 1).steps =
      dispatch_steps_of sample_registry (engine.after_teardown sample_registry [sample_event]
        [action.consumer, action.producer_push second_event] [action.consumer] []
        3 1).handled ∧
    ∃ n, n ≤ (engine.after_teardown sample_registry [sample_event]
        [action.consumer, action.producer_push second_event] [action.consumer] []
        3 1)._log_queue.length + 2 ∧
      ((engine.after_teardown sample_registry [sample_event]
        [action.consumer, action.producer_push second_event] [action.consumer] []
        3 1).run (List.replicate n action.consumer)).pc = pop_task_pc.finished ∧
      (engine.before_teardown sample_registry [sample_event]
        [action.consumer, action.producer_push second_event]).accepted <+:
        ((engine.after_teardown sample_registry [sample_event]
          [action.consumer, action.producer_push second_event] [action.consumer] []
          3 1).run (List.replicate n action.consumer)).handled ∧
      ((engine.after_teardown sample_registry [sample_event]
          [action.consumer, action.producer_push second_event] [action.consumer] []
          3 1).run (List.replicate n action.consumer)).handled ++
        ((engine.after_teardown sample_registry [sample_event]
          [action.consumer, action.producer_push second_event] [action.consumer] []
          3 1).run (List.replicate n action.consumer))._log_queue =
        ((engine.after_teardown sample_registry [sample_event]
          [action.consumer, action.producer_push second_event] [action.consumer] []
          3 1).run (List.replicate n action.consumer)).accepted ∧
      ((engine.after_teardown sample_registry [sample_event]
          [action.consumer, action.producer_push second_event] [action.consumer] []
          3 1).run (List.replicate n action.consumer)).steps =
        dispatch_steps_of sample_registry
          ((engine.after_teardown sample_registry [sample_event]
            [action.consumer, action.producer_push second_event] [action.consumer] []
            3 1).run (List.replicate n action.consumer)).handled :=
  ⟨by simp [all_callable, sample_registry],
   (pop_task_hands_over_accepted_events sample_registry
      (by simp [all_callable, sample_registry]) [sample_event]
      [action.consumer, action.producer_push second_event] [action.consumer] [] 3 1).2.1,
   (pop_task_hands_over_accepted_events sample_registry
      (by simp [all_callable, sample_registry]) [sample_event]
      [action.consumer, action.producer_push second_event] [action.consumer] [] 3 1).2.2.2⟩

/-- The run of the sample schedule, evaluated: both accepted events reach
`_handle_log_info` in order, and the dispatch steps recorded are the lock,
invoke and release steps of the two dispatches (the empty final message adds
none). -/
theorem pop_task_sample_run :
    ((engine.after_teardown sample_registry [sample_event]
        [action.consumer, action.producer_push second_event] [action.consumer] []
        3 1).run (List.replicate 4 action.consumer)).pc = pop_task_pc.finished ∧
    ((engine.after_teardown sample_registry [sample_event]
        [action.consumer, action.producer_push second_event] [action.consumer] []
        3 1).run (List.replicate 4 action.consumer)).handled =
      [sample_event, second_event, final_message 3 1] ∧
    invocations ((engine.after_teardown sample_registry [sample_event]
        [action.consumer, action.producer_push second_event] [action.consumer] []
        3 1).run (List.replicate 4 action.consumer)).steps =
      [{ key := "console", fn := 0, arg := sample_event },
       { key := "console", fn := 0, arg := second_event },
       { key := "file", fn := 1, arg := second_event }] := by
  refine ⟨rfl, rfl, rfl⟩

/-! ## Teardown order -/

/-- Claim C9 as stated fails for the fastpath consumer: in the teardown
sequence of a build with the fastpath enabled, the registry is cleared before
the fastpath consumer is joined. -/
theorem registry_cleared_before_fastpath_join :
    teardown_step.clear_loggers ∈ destructor_steps false ∧
    teardown_step.join_pop_fastpath_task ∈ destructor_steps false ∧
    teardown_position false teardown_step.clear_loggers <
      teardown_position false teardown_step.join_pop_fastpath_task := by
  decide

/-- Claim C9, amended. In the teardown sequence of `~log_resource` the join
of the event-queue consumer `pop_task`, the only thread that reads the
registry, precedes the clear of the registry, and the exit flag is set and
the final message pushed before that join. The fastpath consumer, when the
fastpath is compiled in, is joined after the registry has been cleared; when
the fastpath is compiled out there is no such join. -/
theorem pop_task_joined_before_registry_clear (fastpath_disable : Bool) :
    teardown_step.join_pop_task ∈ destructor_steps fastpath_disable ∧
    teardown_step.clear_loggers ∈ destructor_steps fastpath_disable ∧
    teardown_position fastpath_disable teardown_step.set_exit <
      teardown_position fastpath_disable teardown_step.push_final_message ∧
    teardown_position fastpath_disable teardown_step.push_final_message <
      teardown_position fastpath_disable teardown_step.join_pop_task ∧
    teardown_position fastpath_disable teardown_step.join_pop_task <
      teardown_position fastpath_disable teardown_step.clear_loggers ∧
    (if fastpath_disable then
      teardown_step.join_pop_fastpath_task ∉ destructor_steps fastpath_disable
     else
      teardown_step.join_pop_fastpath_task ∈ destructor_steps fastpath_disable ∧
      teardown_position fastpath_disable teardown_step.clear_loggers <
        teardown_position fastpath_disable teardown_step.join_pop_fastpath_task) := by
  cases fastpath_disable <;> decide

/-! ## The registry mutex during dispatch -/

theorem held_at_invocations_dispatch_loop {F : Type} (L : logger_map F)
    (log_info : logging_info) (tail : List (dispatch_step F))
    (ht : ∀ b ∈ held_at_invocations true tail, b = true) :
    ∀ b ∈ held_at_invocations true ((dispatch_loop L log_info).1 ++ tail), b = true := by
  induction L with
  | nil => simpa [dispatch_loop] using ht
  | cons e rest ih =>
    obtain ⟨k, thr, fn⟩ := e
    by_cases hlt : log_info.verbosity < thr
    · simpa [dispatch_loop, hlt] using ih
    · cases fn with
      | none => simpa [dispatch_loop, hlt] using ht
      | some f =>
        simp only [dispatch_loop, hlt, if_false, List.cons_append, held_at_invocations,
          List.mem_cons]
        intro b hb
        rcases hb with hb | hb
        · exact hb
        · exact ih b hb

theorem mutex_run_dispatch_loop {F : Type} (L : logger_map F) (log_info : logging_info)
    (tail : List (dispatch_step F)) :
    mutex_run true ((dispatch_loop L log_info).1 ++ tail) = mutex_run true tail := by
  induction L with
  | nil => simp [dispatch_loop]
  | cons e rest ih =>
    obtain ⟨k, thr, fn⟩ := e
    by_cases hlt : log_info.verbosity < thr
    · simpa [dispatch_loop, hlt] using ih
    · cases fn with
      | none => simp [dispatch_loop, hlt]
      | some f => simpa [dispatch_loop, hlt, mutex_run] using ih

theorem with_sink_body_nil {F : Type} (steps : List (dispatch_step F)) :
    with_sink_body [] steps = steps := by
  induction steps with
  | nil => rfl
  | cons st rest ih => cases st <;> simp [with_sink_body, ih]

/-- Claim C10 as stated fails: dispatching an event with a non-empty message
to the registry holding the console sink performs the steps acquire, invoke,
release, so the one sink invocation happens with the registry mutex held; and
when that sink calls `add_logger` or `set_logger_level` while being invoked,
the thread tries to take the mutex it already holds. -/
theorem sink_invoked_with_registry_lock_held :
    sample_event.message ≠ "" ∧
    (_handle_log_info console_only_registry sample_event).steps =
      [dispatch_step.lock_acquire, dispatch_step.invoke "console" 0 sample_event,
       dispatch_step.lock_release] ∧
    held_at_invocations false (_handle_log_info console_only_registry sample_event).steps =
      [true] ∧
    mutex_run false (with_sink_body (registry_mutation_steps Nat)
      (_handle_log_info console_only_registry sample_event).steps) = none := by
  refine ⟨by decide, rfl, rfl, rfl⟩

/-- Claim C10, amended. During dispatch of an event by `_handle_log_info` the
registry mutex is held at the moment of every sink invocation. A sink that
takes no registry lock while being invoked (as one that only logs, which
pushes onto the event queue) does not block on the registry mutex. -/
theorem registry_lock_held_at_every_invocation {F : Type} (L : logger_map F)
    (log_info : logging_info) :
    (∀ b ∈ held_at_invocations false (_handle_log_info L log_info).steps, b = true) ∧
    (mutex_run false (with_sink_body [] (_handle_log_info L log_info).steps)).isSome
      = true := by
  by_cases hmsg : log_info.message = ""
  · simp [_handle_log_info, hmsg, held_at_invocations, with_sink_body, mutex_run]
  · rw [with_sink_body_nil]
    simp only [_handle_log_info, hmsg, if_false, held_at_invocations, mutex_run,
      List.cons_append, Bool.false_eq_true]
    refine ⟨?_, ?_⟩
    · apply held_at_invocations_dispatch_loop
      cases (dispatch_loop L log_info).2 <;> simp [held_at_invocations]
    · rw [mutex_run_dispatch_loop]
      cases (dispatch_loop L log_info).2 <;> simp [mutex_run]

end uhd
